import Mathlib

/-!
Verification of the TSP local-search solver (`TSPSolver.py`): a shallow
embedding of the greedy nearest-neighbour constructor, the 2-opt improver
with don't-look bits, and the 3-opt improver, together with theorems about
the specification claims.

Modelling conventions:
* Cities are identified with their indices `0, ..., n-1` in the scenario's
  city list (the source compares city objects by identity and the list holds
  distinct cities), so `cities[i]` is embedded as `i` itself.
* Edge costs are IEEE-style extended values `F` (finite value, plus
  `inf`, `ninf` and `nan`), mirroring Python float arithmetic exactly on
  the operations the solver performs (costs are nonnegative or `inf`;
  `ninf`/`nan` can arise in the 2-opt/3-opt delta expressions).  Finite
  values are carried as integers so that runs evaluate inside the kernel;
  none of the algebraic arguments depend on integrality (they hold over
  any linearly ordered field) and float costs can be scaled to integers
  on any finite instance.
* Wall-clock time checks `time.time() - start_time < time_allowance` are
  modelled by an oracle `checks : Nat -> Bool` giving the outcome of the
  t-th check; `while` loops are modelled with an explicit fuel parameter,
  `none` meaning the loop did not finish within the given fuel.
-/

namespace TSP

/-- Python float values reachable by the solver: finite values, the two
infinities and `nan`, with IEEE arithmetic on them. -/
inductive F where
  | fin (q : ℤ)
  | inf
  | ninf
  | nan
deriving DecidableEq, Repr

/-- IEEE negation. -/
def F.neg : F → F
  | F.nan => F.nan
  | F.inf => F.ninf
  | F.ninf => F.inf
  | F.fin q => F.fin (-q)

/-- IEEE addition on `F` (in particular `inf + ninf = nan`). -/
def F.add : F → F → F
  | F.nan, _ => F.nan
  | _, F.nan => F.nan
  | F.inf, F.ninf => F.nan
  | F.ninf, F.inf => F.nan
  | F.inf, _ => F.inf
  | _, F.inf => F.inf
  | F.ninf, _ => F.ninf
  | _, F.ninf => F.ninf
  | F.fin p, F.fin q => F.fin (p + q)

/-- IEEE subtraction, `a - b = a + (-b)`. -/
def F.sub (a b : F) : F := F.add a (F.neg b)

/-- IEEE strict comparison as a boolean (`nan` compares false with
everything, matching Python). -/
def F.lt : F → F → Bool
  | F.nan, _ => false
  | _, F.nan => false
  | F.ninf, F.ninf => false
  | F.ninf, _ => true
  | _, F.ninf => false
  | F.inf, _ => false
  | F.fin _, F.inf => true
  | F.fin p, F.fin q => decide (p < q)

/-- Mathematical less-or-equal used in statements: strictly below or equal. -/
def F.le (a b : F) : Prop := F.lt a b = true ∨ a = b

instance (a b : F) : Decidable (F.le a b) := by
  unfold F.le
  infer_instance

/-- The values a scenario's cost function may take, per the spec: a
(nonnegative) finite value or `+inf` — never `nan` or `-inf`. -/
def F.isOk (x : F) : Prop := x = F.inf ∨ ∃ q, x = F.fin q

/-- Head of a list of cities, defaulting to `0` for the empty list. -/
def hd0 : List Nat → Nat
  | [] => 0
  | a :: _ => a

/-- Last element of a list of cities, defaulting to `0` for the empty list. -/
def lst0 : List Nat → Nat
  | [] => 0
  | [a] => a
  | _ :: b :: l => lst0 (b :: l)

/-- Modelled from the spec: the open-path part of a tour's cost, the sum of
`cost(route[i], route[i+1])` over consecutive elements (the `TSPSolution`
cost loop lives in `TSPClasses.py`, which is outside `src/`; the spec defines
`totalCost` as the sum of consecutive directed edge costs plus the closing
edge). -/
def pathCostF (c : Nat → Nat → F) : List Nat → F
  | [] => F.fin 0
  | [_] => F.fin 0
  | a :: b :: l => F.add (c a b) (pathCostF c (b :: l))

/-- Modelled from the spec: `Tour.totalCost = sum of cost(tour[i], tour[i+1 mod N])`,
i.e. the consecutive edges plus the closing edge from the last city back to
the first (`TSPSolution.cost` in the external `TSPClasses.py`). -/
def tourCost (c : Nat → Nat → F) (l : List Nat) : F :=
  match l with
  | [] => F.fin 0
  | _ :: _ => F.add (pathCostF c l) (c (lst0 l) (hd0 l))

/-- A `TSPSolution`: a route together with its (cached) total cost. -/
structure Sol where
  route : List Nat
  cost : F
deriving DecidableEq, Repr

/-- Build a `TSPSolution` from a route, computing its cost. -/
def mkSol (c : Nat → Nat → F) (route : List Nat) : Sol :=
  ⟨route, tourCost c route⟩

/-- Lift an everywhere-finite cost function into `F`. -/
def finCost (q : Nat → Nat → ℤ) : Nat → Nat → F :=
  fun a b => F.fin (q a b)

/-- The inner selection of `greedy` (lines 112-121): scan all cities,
skipping visited ones, keeping the strictly cheapest; `shortest` starts at
`math.inf` and `next_city_index` at `0`. -/
def selectNext (c : Nat → Nat → F) (visited : List Nat) (current : Nat) (n : Nat) : Nat :=
  ((List.range n).foldl
    (fun (acc : F × Nat) i =>
      if i ∈ visited then acc
      else
        let cost := c current i
        if F.lt cost acc.1 then (cost, i) else acc)
    (F.inf, 0)).2

/-- The inner `while` of `greedy` (lines 111-128): repeatedly append the
selected next city until every city is visited.  `none` means the loop did
not terminate within `fuel` steps (the source loop has no other exit). -/
def greedyInner (n : Nat) (c : Nat → Nat → F) :
    Nat → List Nat → Nat → List Nat → Option (List Nat)
  | fuel, visited, current, route =>
    if visited.length = n then some route
    else
      match fuel with
      | 0 => none
      | fuel + 1 =>
        let next := selectNext c visited current n
        greedyInner n c fuel (visited.insert next) next (route ++ [next])

/-- Runtime failures of `greedy`: the out-of-bounds access
`cities[start_city_index]` (an `IndexError`) and reading `bssf.cost` when
`bssf` is still `None` (an `AttributeError`). -/
inductive GErr where
  | indexError
  | noneCost
deriving DecidableEq, Repr

instance : DecidableEq (Except GErr Sol) := fun a b =>
  match a, b with
  | Except.ok x, Except.ok y =>
    if h : x = y then isTrue (by rw [h])
    else isFalse (by intro hn; injection hn with h2; exact h h2)
  | Except.error x, Except.error y =>
    if h : x = y then isTrue (by rw [h])
    else isFalse (by intro hn; injection hn with h2; exact h h2)
  | Except.ok _, Except.error _ => isFalse (by intro hn; injection hn)
  | Except.error _, Except.ok _ => isFalse (by intro hn; injection hn)

/-- The outer `while` of `greedy` (lines 103-146): before each attempt the
time oracle is consulted; a finite-cost tour exits the loop, otherwise the
start index advances by one.  On a failed time check the function returns
the last attempted solution (or fails on `bssf.cost` if there is none). -/
def greedyLoop (n : Nat) (c : Nat → Nat → F) (checks : Nat → Bool) :
    Nat → Nat → Option Sol → Option (Except GErr Sol)
  | 0, _, _ => none
  | fuel + 1, t, bssf =>
    if checks t then
      if t < n then
        match greedyInner n c fuel [t] t [t] with
        | none => none
        | some route =>
          let sol := mkSol c route
          if sol.cost ≠ F.inf then some (Except.ok sol)
          else greedyLoop n c checks fuel (t + 1) (some sol)
      else some (Except.error GErr.indexError)
    else
      match bssf with
      | none => some (Except.error GErr.noneCost)
      | some s => some (Except.ok s)

/-- `greedy`: run the outer loop from start index `0` with no solution yet. -/
def greedyRun (n : Nat) (c : Nat → Nat → F) (checks : Nat → Bool) (fuel : Nat) :
    Option (Except GErr Sol) :=
  greedyLoop n c checks fuel 0 none

/-- `lengthDeltaFromTwoOpt` (lines 227-231): the O(1) 2-opt delta computed
from the static city list, `-c(i,i+1) - c(j,j+1) + c(i,j) + c(i+1,j+1)`
with indices mod `n`. -/
def lengthDeltaFromTwoOpt (c : Nat → Nat → F) (n i j : Nat) : F :=
  F.add
    (F.add
      (F.sub (F.neg (c i ((i + 1) % n))) (c j ((j + 1) % n)))
      (c i j))
    (c ((i + 1) % n) ((j + 1) % n))

/-- Python slice `l[a:b]` for nonnegative bounds (clamping like Python). -/
def pySlice (l : List α) (a b : Nat) : List α :=
  (l.drop a).take (b - a)

/-- `twoOptSwap` (lines 233-245): `path[:v1] + path[v1:v2][::-1] + path[v2:]`. -/
def twoOptSwap (path : List α) (v1 v2 : Nat) : List α :=
  path.take v1 ++ (pySlice path v1 v2).reverse ++ path.drop v2

/-- State threaded through the 2-opt inner scan: the current best solution,
the don't-look bits, the per-`i` `dlb_breaker` flag and the per-pass
`improved` flag. -/
structure TwoState where
  best : Sol
  dlb : Nat → Bool
  breaker : Bool
  improved : Bool

/-- One candidate `j` of the inner `for` of `twoOpt` (lines 191-205): skip
degenerate pairs; on a negative delta clear the four endpoints' don't-look
bits, build the swapped route, and accept it only if its recomputed cost is
strictly lower than the current best. -/
def twoOptCandidate (n : Nat) (c : Nat → Nat → F) (i : Nat) (s : TwoState) (j : Nat) :
    TwoState :=
  if i = j ∨ (i + 1) % n = j ∨ (j + 1) % n = i then s
  else if F.lt (lengthDeltaFromTwoOpt c n i j) (F.fin 0) then
    let dlb2 := fun x =>
      if x = i ∨ x = (i + 1) % n ∨ x = j ∨ x = (j + 1) % n then false else s.dlb x
    let newPath := twoOptSwap s.best.route i j
    let newCost := tourCost c newPath
    if F.lt newCost s.best.cost then
      ⟨⟨newPath, newCost⟩, dlb2, true, true⟩
    else
      ⟨s.best, dlb2, s.breaker, s.improved⟩
  else s

/-- The index range `range(len(cities)-1)` used for both the outer `i` and
the partner `j` in `twoOpt` (lines 185 and 191). -/
def twoOptIndexRange (n : Nat) : List Nat := List.range (n - 1)

/-- The set of cities given a don't-look bit by the initialisation loop of
`twoOpt` (lines 175-177): `for i in range(len(cities)-1): dlb[cities[i]] = False`. -/
def dlbInitKeys (n : Nat) : List Nat := (List.range n).take (n - 1)

/-- The outer `for i` of a single 2-opt pass (lines 185-209): skip cities
with a set don't-look bit, scan all partners, break out of the pass when an
exchange was accepted, otherwise set the city's don't-look bit. -/
def twoOptPass (n : Nat) (c : Nat → Nat → F) :
    List Nat → Sol → (Nat → Bool) → Bool → Sol × (Nat → Bool) × Bool
  | [], best, dlb, improved => (best, dlb, improved)
  | i :: rest, best, dlb, improved =>
    if dlb i then twoOptPass n c rest best dlb improved
    else
      let s := (twoOptIndexRange n).foldl (twoOptCandidate n c i)
        ⟨best, dlb, false, improved⟩
      if s.breaker then (s.best, s.dlb, s.improved)
      else twoOptPass n c rest s.best (fun x => if x = i then true else s.dlb x) s.improved

/-- The `while improved` loop of `twoOpt` (lines 183-209); note it performs
no time check.  `none` means the loop did not finish within `fuel` passes. -/
def twoOptLoop (n : Nat) (c : Nat → Nat → F) :
    Nat → Sol → (Nat → Bool) → Option Sol
  | 0, _, _ => none
  | fuel + 1, best, dlb =>
    let r := twoOptPass n c (twoOptIndexRange n) best dlb false
    if r.2.2 then twoOptLoop n c fuel r.1 r.2.1 else some r.1

/-- `twoOpt` (lines 171-217): obtain the initial solution from `greedy()`
(called with its default allowance, hence the same time oracle) and run the
improvement loop.  The caller-supplied `timeAllowance` parameter is received
but never consulted, exactly as in the source. -/
def twoOptRun (n : Nat) (c : Nat → Nat → F) (checks : Nat → Bool)
    (gfuel lfuel : Nat) (timeAllowance : ℚ) : Option (Except GErr Sol) :=
  match greedyRun n c checks gfuel with
  | none => none
  | some (Except.error e) => some (Except.error e)
  | some (Except.ok s0) =>
    match twoOptLoop n c lfuel s0 (fun _ => false) with
    | none => none
    | some s => some (Except.ok s)

/-- `allPossibleSegmentCombinations` (lines 296-300):
`(i, j, k) for i in range(n) for j in range(i+2, n) for k in range(j+2, n + (i>0))`. -/
def allPossibleSegmentCombinations (n : Nat) : List (Nat × Nat × Nat) :=
  (List.range n).flatMap fun i =>
    (List.range' (i + 2) (n - (i + 2))).flatMap fun j =>
      (List.range' (j + 2) (n + (if 0 < i then 1 else 0) - (j + 2))).map fun k =>
        (i, j, k)

/-- Python list indexing `l[idx]` with possibly negative `idx` (negative
indices count from the end); out-of-range accesses return the default `d`
(every use below is in range, so the default is never consulted). -/
def pyGetD (l : List α) (d : α) (idx : Int) : α :=
  let j : Int := if idx < 0 then (l.length : Int) + idx else idx
  if j < 0 then d else l.getD j.toNat d

/-- `calculateThreeOptSwap` (lines 306-345): the closed-form reduction
`delete_length - add_length` of the given reconnection case, computed from
the six boundary cities `X1 X2 Y1 Y2 Z1 Z2`. -/
def calculateThreeOptSwap (c : Nat → Nat → F) (path : List Nat) (i j k caseN : Nat) : F :=
  let X1 := pyGetD path 0 ((i : Int) - 1)
  let X2 := pyGetD path 0 (i : Int)
  let Y1 := pyGetD path 0 ((j : Int) - 1)
  let Y2 := pyGetD path 0 (j : Int)
  let Z1 := pyGetD path 0 ((k : Int) - 1)
  let Z2 := pyGetD path 0 ((k % path.length : Nat) : Int)
  if caseN = 0 then
    F.sub (F.fin 0) (F.fin 0)
  else if caseN = 1 then
    F.sub (F.add (c X1 X2) (c Z1 Z2)) (F.add (c X1 Z1) (c X2 Z2))
  else if caseN = 2 then
    F.sub (F.add (c Y1 Y2) (c Z1 Z2)) (F.add (c Y1 Z1) (c Y2 Z2))
  else if caseN = 3 then
    F.sub (F.add (c X1 X2) (c Y1 Y2)) (F.add (c X1 Y1) (c X2 Y2))
  else if caseN = 4 then
    F.sub (F.add (F.add (c X1 X2) (c Y1 Y2)) (c Z1 Z2))
      (F.add (F.add (c X1 Y1) (c X2 Z1)) (c Y2 Z2))
  else if caseN = 5 then
    F.sub (F.add (F.add (c X1 X2) (c Y1 Y2)) (c Z1 Z2))
      (F.add (F.add (c X1 Z1) (c Y2 X2)) (c Y1 Z2))
  else if caseN = 6 then
    F.sub (F.add (F.add (c X1 X2) (c Y1 Y2)) (c Z1 Z2))
      (F.add (F.add (c X1 Y2) (c Z1 Y1)) (c X2 Z2))
  else if caseN = 7 then
    F.sub (F.add (F.add (c X1 X2) (c Y1 Y2)) (c Z1 Z2))
      (F.add (F.add (c X1 Y2) (c Z1 X2)) (c Y1 Z2))
  else
    F.sub (F.fin 0) (F.fin 0)

/-- `reverseSegments` (lines 347-382): cut the tour into the wrap-around
segment `path[k%n:] + path[:i]` (or `path[k%n:i]`), `path[i:j]` and
`path[j:k]`, and reconcatenate with the case's reversals; unknown cases
return the initial empty `new_path`. -/
def reverseSegments (path : List Nat) (i j k caseN : Nat) : List Nat :=
  let seg1 :=
    if ((i : Int) - 1) < ((k % path.length : Nat) : Int) then
      path.drop (k % path.length) ++ path.take i
    else
      pySlice path (k % path.length) i
  let seg2 := pySlice path i j
  let seg3 := pySlice path j k
  if caseN = 0 then path
  else if caseN = 1 then seg1.reverse ++ seg2 ++ seg3
  else if caseN = 2 then seg1 ++ seg2 ++ seg3.reverse
  else if caseN = 3 then seg1 ++ seg2.reverse ++ seg3
  else if caseN = 4 then seg1 ++ seg2.reverse ++ seg3.reverse
  else if caseN = 5 then seg1.reverse ++ seg2.reverse ++ seg3
  else if caseN = 6 then seg1.reverse ++ seg2 ++ seg3.reverse
  else if caseN = 7 then seg1.reverse ++ seg2.reverse ++ seg3.reverse
  else []

/-- The delta table of `calculateThreeOptSwap` abstracted over the six
boundary cities (used to factor proofs; it is definitionally the same case
dispatch). -/
def threeOptDeltaTable (c : Nat → Nat → F) (X1 X2 Y1 Y2 Z1 Z2 : Nat) (caseN : Nat) : F :=
  match caseN with
  | 0 => F.sub (F.fin 0) (F.fin 0)
  | 1 => F.sub (F.add (c X1 X2) (c Z1 Z2)) (F.add (c X1 Z1) (c X2 Z2))
  | 2 => F.sub (F.add (c Y1 Y2) (c Z1 Z2)) (F.add (c Y1 Z1) (c Y2 Z2))
  | 3 => F.sub (F.add (c X1 X2) (c Y1 Y2)) (F.add (c X1 Y1) (c X2 Y2))
  | 4 => F.sub (F.add (F.add (c X1 X2) (c Y1 Y2)) (c Z1 Z2))
      (F.add (F.add (c X1 Y1) (c X2 Z1)) (c Y2 Z2))
  | 5 => F.sub (F.add (F.add (c X1 X2) (c Y1 Y2)) (c Z1 Z2))
      (F.add (F.add (c X1 Z1) (c Y2 X2)) (c Y1 Z2))
  | 6 => F.sub (F.add (F.add (c X1 X2) (c Y1 Y2)) (c Z1 Z2))
      (F.add (F.add (c X1 Y2) (c Z1 Y1)) (c X2 Z2))
  | 7 => F.sub (F.add (F.add (c X1 X2) (c Y1 Y2)) (c Z1 Z2))
      (F.add (F.add (c X1 Y2) (c Z1 X2)) (c Y1 Z2))
  | _ => F.sub (F.fin 0) (F.fin 0)

/-- The reconnection table of `reverseSegments` abstracted over the three
segments (used to factor proofs: under the triple constraints the segments
computed by `reverseSegments` are exactly `path[k:] + path[:i]`, `path[i:j]`
and `path[j:k]`). -/
def threeOptRecombine (A B C : List Nat) (caseN : Nat) (orig : List Nat) : List Nat :=
  match caseN with
  | 0 => orig
  | 1 => A.reverse ++ B ++ C
  | 2 => A ++ B ++ C.reverse
  | 3 => A ++ B.reverse ++ C
  | 4 => A ++ B.reverse ++ C.reverse
  | 5 => A.reverse ++ B.reverse ++ C
  | 6 => A.reverse ++ B ++ C.reverse
  | 7 => A.reverse ++ B.reverse ++ C.reverse
  | _ => []

/-- The `best_case = max(opt_cases, key=opt_cases.get)` of `threeOpt`
(lines 265-279): scan the eight cases in order, replacing the current best
only on a strictly greater reduction (CPython `max` semantics, under which
`nan` values neither replace nor get replaced). -/
def threeOptBestCase (c : Nat → Nat → F) (path : List Nat) (i j k : Nat) : Nat :=
  (List.range 8).foldl
    (fun best q =>
      if F.lt (calculateThreeOptSwap c path i j k best)
          (calculateThreeOptSwap c path i j k q) then q
      else best)
    0

/-- The `for (i, j, k)` loop of one 3-opt pass (lines 263-285): find the
first triple whose best case has a strictly positive reduction and apply
it; `none` when a full pass applies nothing. -/
def threeOptFindMove (c : Nat → Nat → F) (path : List Nat) :
    List (Nat × Nat × Nat) → Option (List Nat)
  | [] => none
  | (i, j, k) :: rest =>
    let bc := threeOptBestCase c path i j k
    if F.lt (F.fin 0) (calculateThreeOptSwap c path i j k bc) then
      some (reverseSegments path i j k bc)
    else threeOptFindMove c path rest

/-- The `while improved` loop of `threeOpt` (lines 256-285): re-enumerate
all triples after every applied move; no time check is performed.  `none`
means the loop did not finish within `fuel` applied moves. -/
def threeOptLoop (n : Nat) (c : Nat → Nat → F) :
    Nat → List Nat → Option (List Nat)
  | 0, _ => none
  | fuel + 1, path =>
    match threeOptFindMove c path (allPossibleSegmentCombinations n) with
    | some p => threeOptLoop n c fuel p
    | none => some path

/-- `threeOpt` (lines 248-294): initial route from `greedy()` (default
allowance), then the improvement loop; the `timeAllowance` parameter is
received but never consulted, exactly as in the source. -/
def threeOptRun (n : Nat) (c : Nat → Nat → F) (checks : Nat → Bool)
    (gfuel lfuel : Nat) (timeAllowance : ℚ) : Option (Except GErr Sol) :=
  match greedyRun n c checks gfuel with
  | none => none
  | some (Except.error e) => some (Except.error e)
  | some (Except.ok s0) =>
    match threeOptLoop n c lfuel s0.route with
    | none => none
    | some p => some (Except.ok (mkSol c p))

/-- Integer shadow of `pathCostF` for finite-cost scenarios. -/
def pathQ (q : Nat → Nat → ℤ) : List Nat → ℤ
  | [] => 0
  | [_] => 0
  | a :: b :: l => q a b + pathQ q (b :: l)

/-- Integer shadow of `tourCost` for finite-cost scenarios. -/
def tourQ (q : Nat → Nat → ℤ) (l : List Nat) : ℤ :=
  match l with
  | [] => 0
  | _ :: _ => pathQ q l + q (lst0 l) (hd0 l)

/-- Underlying values of a 5-city symmetric scenario (queried with the
smaller index first). -/
def upper3 : Nat → Nat → ℤ
  | 0, 1 => 1
  | 1, 2 => 2
  | 2, 3 => 3
  | 3, 4 => 4
  | 0, 4 => 5
  | 0, 2 => 6
  | 1, 3 => 7
  | 0, 3 => 8
  | 1, 4 => 9
  | 2, 4 => 10
  | _, _ => 0

/-- A 5-city symmetric scenario exercising the 2-opt delta formula. -/
def c3Q (a b : Nat) : ℤ := if a ≤ b then upper3 a b else upper3 b a

/-- `c3Q` lifted to `F`. -/
def c3F : Nat → Nat → F := finCost c3Q

/-- Underlying values of a second 5-city symmetric scenario (smaller index
first). -/
def upper5 : Nat → Nat → ℤ
  | 0, 1 => 2
  | 1, 2 => 3
  | 2, 3 => 8
  | 3, 4 => 2
  | 0, 4 => 10
  | 0, 2 => 5
  | 1, 3 => 4
  | 2, 4 => 9
  | 0, 3 => 7
  | 1, 4 => 6
  | _, _ => 0

/-- A 5-city symmetric scenario on which `twoOpt` applies an improving
exchange. -/
def csym5Q (a b : Nat) : ℤ := if a ≤ b then upper5 a b else upper5 b a

/-- `csym5Q` lifted to `F`. -/
def csym5F : Nat → Nat → F := finCost csym5Q

/-- The symmetric 5-city scenario with the edge between cities 0 and 3
made forbidden (infinite) in both directions — a symmetric scenario with an
infinite cost, as the spec allows. -/
def csymInfF : Nat → Nat → F := fun a b =>
  if (a = 0 ∧ b = 3) ∨ (a = 3 ∧ b = 0) then F.inf else F.fin (csym5Q a b)

/-- A 5-city asymmetric finite-cost scenario on which the 3-opt delta
formula overstates the true reduction. -/
def cexF : Nat → Nat → F
  | 0, 1 => F.fin 10
  | 0, 2 => F.fin 100
  | 0, 3 => F.fin 100
  | 0, 4 => F.fin 100
  | 1, 0 => F.fin 100
  | 1, 2 => F.fin 10
  | 1, 3 => F.fin 100
  | 1, 4 => F.fin 100
  | 2, 0 => F.fin 100
  | 2, 1 => F.fin 100
  | 2, 3 => F.fin 2
  | 2, 4 => F.fin 5
  | 3, 0 => F.fin 5
  | 3, 1 => F.fin 100
  | 3, 2 => F.fin 100
  | 3, 4 => F.fin 10
  | 4, 0 => F.fin 10
  | 4, 1 => F.fin 100
  | 4, 2 => F.fin 100
  | 4, 3 => F.fin 50
  | _, _ => F.fin 0

/-- A 3-city scenario whose only infinite costs are the two edges out of
city 0: greedy dead-ends immediately when it starts there. -/
def c5F : Nat → Nat → F
  | 0, 1 => F.inf
  | 0, 2 => F.inf
  | a, b => if a = b then F.fin 0 else F.fin 1

/-- A 2-city scenario with no finite tour: both start cities produce an
infinite-cost tour, after which `greedy` runs out of start indices. -/
def c6F : Nat → Nat → F
  | 0, 1 => F.fin 1
  | 1, 0 => F.inf
  | _, _ => F.fin 0

/-- The all-ones symmetric cost function (every tour has the same cost). -/
def oneQ : Nat → Nat → ℤ := fun _ _ => 1

theorem F.le_refl (a : F) : F.le a a := Or.inr rfl

theorem F.le_of_lt {a b : F} (h : F.lt a b = true) : F.le a b := Or.inl h

theorem F.lt_trans {a b c : F} (hab : F.lt a b = true) (hbc : F.lt b c = true) :
    F.lt a c = true := by
  cases a <;> cases b <;> cases c <;> simp_all [F.lt] <;> exact hab.trans hbc

theorem F.le_trans {a b c : F} (hab : F.le a b) (hbc : F.le b c) : F.le a c := by
  rcases hab with h1 | h1 <;> rcases hbc with h2 | h2
  · exact Or.inl (F.lt_trans h1 h2)
  · exact h2 ▸ Or.inl h1
  · exact Or.inl (h1 ▸ h2)
  · exact Or.inr (h1.trans h2)

theorem F.add_fin (p q : ℤ) : F.add (F.fin p) (F.fin q) = F.fin (p + q) := rfl

theorem F.sub_fin (p q : ℤ) : F.sub (F.fin p) (F.fin q) = F.fin (p - q) := by
  show F.fin (p + -q) = F.fin (p - q)
  rw [← sub_eq_add_neg]

theorem F.lt_fin (p q : ℤ) : F.lt (F.fin p) (F.fin q) = true ↔ p < q := by
  simp [F.lt]

theorem F.le_fin {p q : ℤ} (h : p ≤ q) : F.le (F.fin p) (F.fin q) := by
  rcases lt_or_eq_of_le h with h | h
  · exact Or.inl ((F.lt_fin p q).2 h)
  · exact Or.inr (by rw [h])

theorem F.addComm (a b : F) : F.add a b = F.add b a := by
  cases a <;> cases b <;> simp [F.add, Int.add_comm]

theorem F.addAssoc (a b c : F) : F.add (F.add a b) c = F.add a (F.add b c) := by
  cases a <;> cases b <;> cases c <;> simp [F.add, Int.add_assoc]

theorem F.addLeftComm (a b c : F) : F.add a (F.add b c) = F.add b (F.add a c) := by
  rw [← F.addAssoc, F.addComm a b, F.addAssoc]

theorem F.zero_addF (a : F) : F.add (F.fin 0) a = a := by
  cases a <;> simp [F.add]

theorem F.addF_zero (a : F) : F.add a (F.fin 0) = a := by
  cases a <;> simp [F.add]

theorem F.isOk_add {a b : F} (ha : F.isOk a) (hb : F.isOk b) : F.isOk (F.add a b) := by
  rcases ha with rfl | ⟨p, rfl⟩ <;> rcases hb with rfl | ⟨q, rfl⟩
  · exact Or.inl rfl
  · exact Or.inl rfl
  · exact Or.inl rfl
  · exact Or.inr ⟨p + q, rfl⟩

theorem F.add_le_add_of_pos_sub (x D A : F) (hx : F.isOk x) (hD : F.isOk D)
    (hA : F.isOk A) (hpos : F.lt (F.fin 0) (F.sub D A) = true) :
    F.le (F.add x A) (F.add x D) := by
  rcases hA with rfl | ⟨qA, rfl⟩
  · rcases hD with rfl | ⟨qD, rfl⟩ <;> simp [F.sub, F.neg, F.add, F.lt] at hpos
  · rcases hD with rfl | ⟨qD, rfl⟩
    · rcases hx with rfl | ⟨qx, rfl⟩
      · exact Or.inr rfl
      · exact Or.inl rfl
    · have hlt : qA < qD := by
        simp only [F.sub, F.neg, F.add, F.lt, decide_eq_true_eq] at hpos
        omega
      rcases hx with rfl | ⟨qx, rfl⟩
      · exact Or.inr rfl
      · exact F.le_fin (by omega)

theorem lst0_cons_cons (a b : Nat) (l : List Nat) :
    lst0 (a :: b :: l) = lst0 (b :: l) := rfl

theorem lst0_cons_of_ne_nil (a : Nat) {l : List Nat} (h : l ≠ []) :
    lst0 (a :: l) = lst0 l := by
  cases l with
  | nil => exact absurd rfl h
  | cons b t => rfl

theorem lst0_concat (xs : List Nat) (a : Nat) : lst0 (xs ++ [a]) = a := by
  induction xs with
  | nil => rfl
  | cons x xs ih =>
    cases xs with
    | nil => rfl
    | cons y ys => simpa [lst0] using ih

theorem lst0_append (xs : List Nat) {ys : List Nat} (h : ys ≠ []) :
    lst0 (xs ++ ys) = lst0 ys := by
  induction xs with
  | nil => rfl
  | cons x xs ih =>
    rw [List.cons_append, lst0_cons_of_ne_nil]
    · exact ih
    · intro hn
      rcases List.append_eq_nil.1 hn with ⟨-, h2⟩
      exact h h2

theorem hd0_append {xs : List Nat} (ys : List Nat) (h : xs ≠ []) :
    hd0 (xs ++ ys) = hd0 xs := by
  cases xs with
  | nil => exact absurd rfl h
  | cons a t => rfl

theorem hd0_reverse (l : List Nat) : hd0 l.reverse = lst0 l := by
  induction l with
  | nil => rfl
  | cons a t ih =>
    cases t with
    | nil => rfl
    | cons b u =>
      rw [List.reverse_cons, hd0_append _ (by simp), ih, lst0_cons_cons]

theorem lst0_reverse (l : List Nat) : lst0 l.reverse = hd0 l := by
  cases l with
  | nil => rfl
  | cons a t => rw [List.reverse_cons, lst0_concat]; rfl

theorem hd0_take {m : Nat} (h : 0 < m) (l : List Nat) : hd0 (l.take m) = hd0 l := by
  cases m with
  | zero => omega
  | succ m =>
    cases l with
    | nil => rfl
    | cons a t => rfl

theorem getD_drop (l : List Nat) (i m : Nat) :
    (l.drop i).getD m 0 = l.getD (i + m) 0 := by
  induction l generalizing i with
  | nil => simp
  | cons a t ih =>
    cases i with
    | zero => simp
    | succ i =>
      rw [List.drop_succ_cons, ih, Nat.succ_add, List.getD_cons_succ]

theorem hd0_drop {l : List Nat} {i : Nat} (h : i < l.length) :
    hd0 (l.drop i) = l.getD i 0 := by
  induction l generalizing i with
  | nil => simp at h
  | cons a t ih =>
    cases i with
    | zero => rfl
    | succ i =>
      rw [List.drop_succ_cons, List.getD_cons_succ]
      exact ih (by simpa using h)

theorem lst0_take {l : List Nat} {m : Nat} (h1 : 0 < m) (h2 : m ≤ l.length) :
    lst0 (l.take m) = l.getD (m - 1) 0 := by
  induction l generalizing m with
  | nil => simp at h2; omega
  | cons a t ih =>
    cases m with
    | zero => omega
    | succ m =>
      rw [List.take_succ_cons]
      cases m with
      | zero => simp [lst0]
      | succ m =>
        have hlen : m + 1 ≤ t.length := by
          rw [List.length_cons] at h2
          omega
        have ht : t.take (m + 1) ≠ [] := by
          intro hn
          have hl := congrArg List.length hn
          rw [List.length_take] at hl
          simp only [List.length_nil, Nat.min_eq_zero_iff] at hl
          omega
        rw [lst0_cons_of_ne_nil _ ht, ih (Nat.succ_pos m) hlen]
        simp [List.getD_cons_succ]

theorem lst0_drop {l : List Nat} {k : Nat} (h : k < l.length) :
    lst0 (l.drop k) = lst0 l := by
  induction l generalizing k with
  | nil => simp at h
  | cons a t ih =>
    cases k with
    | zero => rfl
    | succ k =>
      have hk : k < t.length := by simpa using h
      rw [List.drop_succ_cons, ih hk, lst0_cons_of_ne_nil]
      intro hn
      rw [hn] at hk
      simp at hk

theorem pathQ_cons_cons (q : Nat → Nat → ℤ) (a b : Nat) (l : List Nat) :
    pathQ q (a :: b :: l) = q a b + pathQ q (b :: l) := rfl

theorem pathQ_append (q : Nat → Nat → ℤ) {xs ys : List Nat} (hx : xs ≠ []) (hy : ys ≠ []) :
    pathQ q (xs ++ ys) = pathQ q xs + q (lst0 xs) (hd0 ys) + pathQ q ys := by
  induction xs with
  | nil => exact absurd rfl hx
  | cons x xs ih =>
    cases xs with
    | nil =>
      cases ys with
      | nil => exact absurd rfl hy
      | cons y t => simp [pathQ, lst0, hd0]
    | cons x2 t =>
      have ihh := ih (by simp)
      rw [List.cons_append] at ihh
      rw [List.cons_append, List.cons_append, pathQ_cons_cons, ihh,
        lst0_cons_cons, pathQ_cons_cons]
      ring

theorem pathQ_reverse (q : Nat → Nat → ℤ) (hsym : ∀ a b, q a b = q b a)
    (l : List Nat) : pathQ q l.reverse = pathQ q l := by
  induction l with
  | nil => rfl
  | cons a t ih =>
    cases t with
    | nil => rfl
    | cons b u =>
      rw [List.reverse_cons,
        pathQ_append q (by simp) (by simp : ([a] : List Nat) ≠ []), ih]
      simp only [pathQ, lst0_reverse, hd0, pathQ_cons_cons]
      linarith [hsym a b]

theorem tourQ_eq (q : Nat → Nat → ℤ) {l : List Nat} (h : l ≠ []) :
    tourQ q l = pathQ q l + q (lst0 l) (hd0 l) := by
  cases l with
  | nil => exact absurd rfl h
  | cons a t => rfl

theorem tourQ_rotate (q : Nat → Nat → ℤ) (xs ys : List Nat) :
    tourQ q (xs ++ ys) = tourQ q (ys ++ xs) := by
  rcases eq_or_ne xs [] with hx | hx
  · simp [hx]
  rcases eq_or_ne ys [] with hy | hy
  · simp [hy]
  rw [tourQ_eq q (by simp [hx]), tourQ_eq q (by simp [hy]),
    pathQ_append q hx hy, pathQ_append q hy hx,
    hd0_append ys hx, hd0_append xs hy, lst0_append xs hy, lst0_append ys hx]
  ring

theorem tourQ_concat3 (q : Nat → Nat → ℤ) {A B C : List Nat}
    (hA : A ≠ []) (hB : B ≠ []) (hC : C ≠ []) :
    tourQ q (A ++ B ++ C) =
      pathQ q A + pathQ q B + pathQ q C +
        q (lst0 A) (hd0 B) + q (lst0 B) (hd0 C) + q (lst0 C) (hd0 A) := by
  have hBC : B ++ C ≠ [] := by simp [hB]
  rw [List.append_assoc, tourQ_eq q (by simp [hA]),
    pathQ_append q hA hBC, pathQ_append q hB hC,
    hd0_append (B ++ C) hA, lst0_append A hBC, lst0_append B hC,
    hd0_append C hB]
  ring

theorem pathCostF_finCost (q : Nat → Nat → ℤ) (l : List Nat) :
    pathCostF (finCost q) l = F.fin (pathQ q l) := by
  induction l with
  | nil => rfl
  | cons a t ih =>
    cases t with
    | nil => rfl
    | cons b u =>
      simp only [pathCostF, pathQ] at *
      rw [ih, finCost, F.add_fin]

theorem tourCost_finCost (q : Nat → Nat → ℤ) (l : List Nat) :
    tourCost (finCost q) l = F.fin (tourQ q l) := by
  cases l with
  | nil => rfl
  | cons a t =>
    simp only [tourCost, tourQ]
    rw [pathCostF_finCost, finCost, F.add_fin]

theorem pathCostF_cons_cons (c : Nat → Nat → F) (a b : Nat) (l : List Nat) :
    pathCostF c (a :: b :: l) = F.add (c a b) (pathCostF c (b :: l)) := rfl

theorem pathCostF_append (c : Nat → Nat → F) {xs ys : List Nat}
    (hx : xs ≠ []) (hy : ys ≠ []) :
    pathCostF c (xs ++ ys) =
      F.add (F.add (pathCostF c xs) (c (lst0 xs) (hd0 ys))) (pathCostF c ys) := by
  induction xs with
  | nil => exact absurd rfl hx
  | cons x xs ih =>
    cases xs with
    | nil =>
      cases ys with
      | nil => exact absurd rfl hy
      | cons y t => simp [pathCostF, lst0, hd0, F.zero_addF]
    | cons x2 t =>
      have ihh := ih (by simp)
      rw [List.cons_append] at ihh
      rw [List.cons_append, List.cons_append, pathCostF_cons_cons, ihh,
        lst0_cons_cons, pathCostF_cons_cons]
      simp only [F.addAssoc, F.addComm, F.addLeftComm]

theorem pathCostF_reverse (c : Nat → Nat → F) (hsym : ∀ a b, c a b = c b a)
    (l : List Nat) : pathCostF c l.reverse = pathCostF c l := by
  induction l with
  | nil => rfl
  | cons a t ih =>
    cases t with
    | nil => rfl
    | cons b u =>
      rw [List.reverse_cons,
        pathCostF_append c (by simp) (by simp : ([a] : List Nat) ≠ []), ih]
      simp only [pathCostF, lst0_reverse, hd0]
      rw [hsym b a, F.addF_zero, F.addComm]

theorem tourCostF_eq (c : Nat → Nat → F) {l : List Nat} (h : l ≠ []) :
    tourCost c l = F.add (pathCostF c l) (c (lst0 l) (hd0 l)) := by
  cases l with
  | nil => exact absurd rfl h
  | cons a t => rfl

theorem tourCostF_rotate (c : Nat → Nat → F) (xs ys : List Nat) :
    tourCost c (xs ++ ys) = tourCost c (ys ++ xs) := by
  rcases eq_or_ne xs [] with hx | hx
  · simp [hx]
  rcases eq_or_ne ys [] with hy | hy
  · simp [hy]
  rw [tourCostF_eq c (by simp [hx]), tourCostF_eq c (by simp [hy]),
    pathCostF_append c hx hy, pathCostF_append c hy hx,
    hd0_append ys hx, hd0_append xs hy, lst0_append xs hy, lst0_append ys hx]
  simp only [F.addAssoc, F.addComm, F.addLeftComm]

theorem tourCostF_concat3 (c : Nat → Nat → F) {A B C : List Nat}
    (hA : A ≠ []) (hB : B ≠ []) (hC : C ≠ []) :
    tourCost c (A ++ B ++ C) =
      F.add (F.add (F.add (F.add (F.add (pathCostF c A) (pathCostF c B))
          (pathCostF c C)) (c (lst0 A) (hd0 B))) (c (lst0 B) (hd0 C)))
        (c (lst0 C) (hd0 A)) := by
  have hBC : B ++ C ≠ [] := by simp [hB]
  rw [List.append_assoc, tourCostF_eq c (by simp [hA]),
    pathCostF_append c hA hBC, pathCostF_append c hB hC,
    hd0_append (B ++ C) hA, lst0_append A hBC, lst0_append B hC,
    hd0_append C hB]
  simp only [F.addAssoc, F.addComm, F.addLeftComm]

theorem tourCostF_rotate4 (c : Nat → Nat → F) (T0 B C T3 : List Nat) :
    tourCost c ((T3 ++ T0) ++ B ++ C) = tourCost c (((T0 ++ B) ++ C) ++ T3) := by
  rw [tourCostF_rotate c ((T0 ++ B) ++ C) T3]
  simp [List.append_assoc]

theorem pathCostF_isOk (c : Nat → Nat → F) (hok : ∀ a b, F.isOk (c a b)) :
    ∀ l : List Nat, F.isOk (pathCostF c l)
  | [] => Or.inr ⟨0, rfl⟩
  | [_] => Or.inr ⟨0, rfl⟩
  | _ :: b :: l => F.isOk_add (hok _ _) (pathCostF_isOk c hok (b :: l))

theorem mem_combos (n i j k : Nat) :
    (i, j, k) ∈ allPossibleSegmentCombinations n ↔
      i < n ∧ i + 2 ≤ j ∧ j < n ∧ j + 2 ≤ k ∧
        k < n + (if 0 < i then 1 else 0) := by
  simp only [allPossibleSegmentCombinations, List.mem_flatMap, List.mem_map,
    List.mem_range, List.mem_range', Prod.mk.injEq]
  constructor
  · rintro ⟨a, ha, b, ⟨t1, ht1, hb⟩, c, ⟨t2, ht2, hc⟩, rfl, rfl, rfl⟩
    by_cases hi : 0 < a <;> simp only [hi, if_true, if_false] <;>
      simp only [hi, if_true, if_false] at ht2 <;> omega
  · rintro ⟨h1, h2, h3, h4, h5⟩
    refine ⟨i, h1, j, ⟨j - (i + 2), ?_, ?_⟩, k, ⟨k - (j + 2), ?_, ?_⟩, rfl, rfl, rfl⟩
    · omega
    · omega
    · by_cases hi : 0 < i <;> simp only [hi, if_true, if_false] at h5 ⊢ <;> omega
    · omega

theorem pyGetD_ofNat (l : List α) (d : α) (m : Nat) :
    pyGetD l d (m : Int) = l.getD m d := by
  have h1 : ¬ ((m : Int) < 0) := by omega
  simp [pyGetD, h1, Int.toNat_ofNat]

theorem pyGetD_neg_one {l : List α} (d : α) (h : l ≠ []) :
    pyGetD l d (-1) = l.getD (l.length - 1) d := by
  have hl : 1 ≤ l.length := List.length_pos.2 h
  have h1 : ((l.length : Int) + -1).toNat = l.length - 1 := by omega
  have h2 : ¬ ((l.length : Int) + -1 < 0) := by omega
  simp [pyGetD, h1, h2]

theorem getD_eq_lst0 {l : List Nat} (h : l ≠ []) :
    l.getD (l.length - 1) 0 = lst0 l := by
  induction l with
  | nil => exact absurd rfl h
  | cons a t ih =>
    cases t with
    | nil => rfl
    | cons b u =>
      have e1 : (a :: b :: u).getD ((a :: b :: u).length - 1) 0
          = (b :: u).getD ((b :: u).length - 1) 0 := by
        simp only [List.length_cons]
        rw [show u.length + 1 + 1 - 1 = u.length + 1 from by omega,
          List.getD_cons_succ,
          show u.length + 1 - 1 = u.length from by omega]
      rw [e1, ih (by simp), lst0_cons_cons]

theorem pySlice_ne_nil {l : List Nat} {a b : Nat} (h1 : a < b) (h2 : a < l.length) :
    pySlice l a b ≠ [] := by
  intro hn
  have hl := congrArg List.length hn
  rw [pySlice, List.length_take, List.length_drop] at hl
  simp only [List.length_nil, Nat.min_eq_zero_iff] at hl
  omega

theorem hd0_pySlice {l : List Nat} {a b : Nat} (h1 : a < b) (h2 : a < l.length) :
    hd0 (pySlice l a b) = l.getD a 0 := by
  rw [pySlice, hd0_take (by omega), hd0_drop h2]

theorem lst0_pySlice {l : List Nat} {a b : Nat} (h1 : a < b) (h2 : b ≤ l.length) :
    lst0 (pySlice l a b) = l.getD (b - 1) 0 := by
  rw [pySlice, lst0_take (by omega) (by rw [List.length_drop]; omega), getD_drop]
  congr 1
  omega

theorem pySlice_append_drop {l : List Nat} {a b : Nat} (h : a ≤ b) :
    pySlice l a b ++ l.drop b = l.drop a := by
  have hb : l.drop b = (l.drop a).drop (b - a) := by
    rw [List.drop_drop]
    congr 1
    omega
  rw [pySlice, hb, List.take_append_drop]

theorem combos_bounds {n i j k : Nat}
    (h : (i, j, k) ∈ allPossibleSegmentCombinations n) :
    i + 2 ≤ j ∧ j + 2 ≤ k ∧ k ≤ n ∧ (i = 0 → k < n) := by
  have hm := (mem_combos n i j k).1 h
  by_cases hi : 0 < i <;> simp only [hi, if_true, if_false] at hm <;> omega

theorem take_nonempty {l : List Nat} {m : Nat} (h1 : 0 < m) (h2 : 0 < l.length) :
    l.take m ≠ [] := by
  intro hn
  have hl := congrArg List.length hn
  rw [List.length_take] at hl
  simp only [List.length_nil, Nat.min_eq_zero_iff] at hl
  omega

theorem drop_nonempty {l : List Nat} {m : Nat} (h : m < l.length) :
    l.drop m ≠ [] := by
  intro hn
  have hl := congrArg List.length hn
  rw [List.length_drop] at hl
  simp only [List.length_nil] at hl
  omega

theorem getD_zero_eq_hd0 {l : List Nat} (h : l ≠ []) : l.getD 0 0 = hd0 l := by
  cases l with
  | nil => exact absurd rfl h
  | cons a t => rfl

theorem seg1_eq {path : List Nat} {i j k : Nat} (h2 : i + 2 ≤ j) (h4 : j + 2 ≤ k)
    (hk : k ≤ path.length) (hik : i = 0 → k < path.length) :
    (if ((i : Int) - 1) < ((k % path.length : Nat) : Int) then
        path.drop (k % path.length) ++ path.take i
      else pySlice path (k % path.length) i) = path.drop k ++ path.take i := by
  rcases Nat.lt_or_ge k path.length with hlt | hge
  · rw [Nat.mod_eq_of_lt hlt, if_pos (by omega)]
  · have hkn : k = path.length := by omega
    have hi0 : 0 < i := by
      rcases Nat.eq_zero_or_pos i with h0 | h0
      · exact absurd (hik h0) (by omega)
      · exact h0
    subst hkn
    rw [Nat.mod_self, if_neg (by omega)]
    simp [pySlice, List.drop_length]

theorem reverseSegments_recombine {path : List Nat} {i j k : Nat}
    (h2 : i + 2 ≤ j) (h4 : j + 2 ≤ k) (hk : k ≤ path.length)
    (hik : i = 0 → k < path.length) (cs : Nat) :
    reverseSegments path i j k cs =
      threeOptRecombine (path.drop k ++ path.take i)
        (pySlice path i j) (pySlice path j k) cs path := by
  simp only [reverseSegments, seg1_eq h2 h4 hk hik]
  rcases cs with _ | _ | _ | _ | _ | _ | _ | _ | cs <;> rfl

theorem calculateThreeOptSwap_table (c : Nat → Nat → F) (path : List Nat)
    (i j k cs : Nat) :
    calculateThreeOptSwap c path i j k cs =
      threeOptDeltaTable c (pyGetD path 0 ((i : Int) - 1)) (pyGetD path 0 (i : Int))
        (pyGetD path 0 ((j : Int) - 1)) (pyGetD path 0 (j : Int))
        (pyGetD path 0 ((k : Int) - 1)) (pyGetD path 0 ((k % path.length : Nat) : Int))
        cs := by
  rcases cs with _ | _ | _ | _ | _ | _ | _ | _ | cs <;> rfl

theorem segA_nonempty {path : List Nat} {i j k : Nat} (h4 : j + 2 ≤ k)
    (hk : k ≤ path.length) (hik : i = 0 → k < path.length) :
    path.drop k ++ path.take i ≠ [] := by
  intro hn
  rcases List.append_eq_nil.1 hn with ⟨hd, ht⟩
  have l1 : path.length - k = 0 := by
    rw [← List.length_drop, hd]
    rfl
  have l2 : i = 0 ∨ path.length = 0 := by
    have hl := congrArg List.length ht
    rw [List.length_take] at hl
    simpa [Nat.min_eq_zero_iff] using hl
  rcases l2 with rfl | hl
  · exact absurd (hik rfl) (by omega)
  · omega

theorem hd0_segA {path : List Nat} {i j k : Nat} (h2 : i + 2 ≤ j) (h4 : j + 2 ≤ k)
    (hk : k ≤ path.length) (hik : i = 0 → k < path.length) :
    hd0 (path.drop k ++ path.take i) = pyGetD path 0 ((k % path.length : Nat) : Int) := by
  rcases Nat.lt_or_ge k path.length with hlt | hge
  · rw [Nat.mod_eq_of_lt hlt, pyGetD_ofNat, hd0_append _ (drop_nonempty hlt),
      hd0_drop hlt]
  · have hkn : k = path.length := by omega
    have hi0 : 0 < i := by
      rcases Nat.eq_zero_or_pos i with h0 | h0
      · exact absurd (hik h0) (by omega)
      · exact h0
    subst hkn
    rw [Nat.mod_self, pyGetD_ofNat, List.drop_length, List.nil_append,
      hd0_take hi0,
      getD_zero_eq_hd0 (by intro hn; rw [hn, List.length_nil] at h4; omega)]

theorem lst0_segA {path : List Nat} {i j k : Nat} (h2 : i + 2 ≤ j) (h4 : j + 2 ≤ k)
    (hk : k ≤ path.length) (hik : i = 0 → k < path.length) :
    lst0 (path.drop k ++ path.take i) = pyGetD path 0 ((i : Int) - 1) := by
  have hne : path ≠ [] := by
    intro hn
    rw [hn] at hk
    simp at hk
    omega
  rcases Nat.eq_zero_or_pos i with rfl | hi0
  · have hlt := hik rfl
    rw [List.take_zero, List.append_nil, lst0_drop hlt]
    rw [show ((0 : Nat) : Int) - 1 = -1 from by norm_num, pyGetD_neg_one 0 hne,
      getD_eq_lst0 hne]
  · have hne2 : path.take i ≠ [] :=
      take_nonempty hi0 (by omega)
    rw [lst0_append _ hne2, lst0_take hi0 (by omega : i ≤ path.length),
      show (i : Int) - 1 = ((i - 1 : Nat) : Int) from by omega, pyGetD_ofNat]

theorem hd0_segB {path : List Nat} {i j k : Nat} (h2 : i + 2 ≤ j) (h4 : j + 2 ≤ k)
    (hk : k ≤ path.length) :
    hd0 (pySlice path i j) = pyGetD path 0 (i : Int) := by
  rw [pyGetD_ofNat,
    hd0_pySlice (show i < j by omega) (show i < path.length by omega)]

theorem lst0_segB {path : List Nat} {i j k : Nat} (h2 : i + 2 ≤ j) (h4 : j + 2 ≤ k)
    (hk : k ≤ path.length) :
    lst0 (pySlice path i j) = pyGetD path 0 ((j : Int) - 1) := by
  rw [show (j : Int) - 1 = ((j - 1 : Nat) : Int) from by omega, pyGetD_ofNat,
    lst0_pySlice (show i < j by omega) (show j ≤ path.length by omega)]

theorem hd0_segC {path : List Nat} {i j k : Nat} (h2 : i + 2 ≤ j) (h4 : j + 2 ≤ k)
    (hk : k ≤ path.length) :
    hd0 (pySlice path j k) = pyGetD path 0 (j : Int) := by
  rw [pyGetD_ofNat,
    hd0_pySlice (show j < k by omega) (show j < path.length by omega)]

theorem lst0_segC {path : List Nat} {i j k : Nat} (h2 : i + 2 ≤ j) (h4 : j + 2 ≤ k)
    (hk : k ≤ path.length) :
    lst0 (pySlice path j k) = pyGetD path 0 ((k : Int) - 1) := by
  rw [show (k : Int) - 1 = ((k - 1 : Nat) : Int) from by omega, pyGetD_ofNat,
    lst0_pySlice (show j < k by omega) (show k ≤ path.length by omega)]

theorem path_decomp {path : List Nat} {i j k : Nat} (h2 : i + 2 ≤ j)
    (h4 : j + 2 ≤ k) (hk : k ≤ path.length) :
    ((path.take i ++ pySlice path i j) ++ pySlice path j k) ++ path.drop k = path := by
  rw [List.append_assoc (path.take i ++ pySlice path i j),
    pySlice_append_drop (by omega : j ≤ k),
    List.append_assoc (path.take i),
    pySlice_append_drop (by omega : i ≤ j),
    List.take_append_drop]

theorem tourQ_rotate4 (q : Nat → Nat → ℤ) (T0 B C T3 : List Nat) :
    tourQ q ((T3 ++ T0) ++ B ++ C) = tourQ q (((T0 ++ B) ++ C) ++ T3) := by
  rw [tourQ_rotate q (((T0 ++ B) ++ C)) T3]
  simp [List.append_assoc]

theorem perm_recombine_base {path : List Nat} {i j k : Nat} (h2 : i + 2 ≤ j)
    (h4 : j + 2 ≤ k) (hk : k ≤ path.length) :
    List.Perm ((path.drop k ++ path.take i) ++ pySlice path i j ++ pySlice path j k)
      path := by
  have e1 : (path.drop k ++ path.take i) ++ pySlice path i j ++ pySlice path j k
      = path.drop k ++ (path.take i ++ (pySlice path i j ++ pySlice path j k)) := by
    simp [List.append_assoc]
  rw [e1]
  have hp := @List.perm_append_comm Nat (path.drop k)
    (path.take i ++ (pySlice path i j ++ pySlice path j k))
  refine hp.trans ?_
  have e2 : (path.take i ++ (pySlice path i j ++ pySlice path j k)) ++ path.drop k
      = ((path.take i ++ pySlice path i j) ++ pySlice path j k) ++ path.drop k := by
    simp [List.append_assoc]
  rw [e2, path_decomp h2 h4 hk]

theorem reverseSegments_perm {path : List Nat} {i j k cs : Nat}
    (hmem : (i, j, k) ∈ allPossibleSegmentCombinations path.length) (hcs : cs ≤ 7) :
    List.Perm (reverseSegments path i j k cs) path := by
  obtain ⟨h2, h4, hk, hik⟩ := combos_bounds hmem
  rw [reverseSegments_recombine h2 h4 hk hik]
  have base := perm_recombine_base h2 h4 hk
  have pA := List.reverse_perm (path.drop k ++ path.take i)
  have pB := List.reverse_perm (pySlice path i j)
  have pC := List.reverse_perm (pySlice path j k)
  have rA := List.Perm.refl (path.drop k ++ path.take i)
  have rB := List.Perm.refl (pySlice path i j)
  have rC := List.Perm.refl (pySlice path j k)
  interval_cases cs
  · exact List.Perm.refl path
  · exact ((pA.append rB).append rC).trans base
  · exact ((rA.append rB).append pC).trans base
  · exact ((rA.append pB).append rC).trans base
  · exact ((rA.append pB).append pC).trans base
  · exact ((pA.append pB).append rC).trans base
  · exact ((pA.append rB).append pC).trans base
  · exact ((pA.append pB).append pC).trans base

theorem threeOptDelta_eq (q : Nat → Nat → ℤ) (hsym : ∀ a b, q a b = q b a)
    (path : List Nat) (i j k cs : Nat)
    (hmem : (i, j, k) ∈ allPossibleSegmentCombinations path.length) (hcs : cs ≤ 7) :
    calculateThreeOptSwap (finCost q) path i j k cs
      = F.fin (tourQ q path - tourQ q (reverseSegments path i j k cs)) := by
  obtain ⟨h2, h4, hk, hik⟩ := combos_bounds hmem
  have hAne : path.drop k ++ path.take i ≠ [] := segA_nonempty h4 hk hik
  have hBne : pySlice path i j ≠ [] :=
    pySlice_ne_nil (show i < j by omega) (show i < path.length by omega)
  have hCne : pySlice path j k ≠ [] :=
    pySlice_ne_nil (show j < k by omega) (show j < path.length by omega)
  have hARne : (path.drop k ++ path.take i).reverse ≠ [] := by
    simp only [ne_eq, List.reverse_eq_nil_iff]
    exact hAne
  have hBRne : (pySlice path i j).reverse ≠ [] := by
    simp only [ne_eq, List.reverse_eq_nil_iff]
    exact hBne
  have hCRne : (pySlice path j k).reverse ≠ [] := by
    simp only [ne_eq, List.reverse_eq_nil_iff]
    exact hCne
  have eZ2 := (hd0_segA h2 h4 hk hik).symm
  have eX1 := (lst0_segA h2 h4 hk hik).symm
  have eX2 := (hd0_segB h2 h4 hk).symm
  have eY1 := (lst0_segB h2 h4 hk).symm
  have eY2 := (hd0_segC h2 h4 hk).symm
  have eZ1 := (lst0_segC h2 h4 hk).symm
  have htour : tourQ q ((path.drop k ++ path.take i) ++ pySlice path i j
      ++ pySlice path j k) = tourQ q path := by
    rw [tourQ_rotate4 q (path.take i) (pySlice path i j) (pySlice path j k)
      (path.drop k), path_decomp h2 h4 hk]
  have hs1 := hsym (lst0 (path.drop k ++ path.take i)) (hd0 (path.drop k ++ path.take i))
  have hs2 := hsym (lst0 (path.drop k ++ path.take i)) (lst0 (pySlice path i j))
  have hs3 := hsym (lst0 (path.drop k ++ path.take i)) (hd0 (pySlice path i j))
  have hs4 := hsym (lst0 (path.drop k ++ path.take i)) (lst0 (pySlice path j k))
  have hs5 := hsym (lst0 (path.drop k ++ path.take i)) (hd0 (pySlice path j k))
  have hs6 := hsym (hd0 (path.drop k ++ path.take i)) (lst0 (pySlice path i j))
  have hs7 := hsym (hd0 (path.drop k ++ path.take i)) (hd0 (pySlice path i j))
  have hs8 := hsym (hd0 (path.drop k ++ path.take i)) (lst0 (pySlice path j k))
  have hs9 := hsym (hd0 (path.drop k ++ path.take i)) (hd0 (pySlice path j k))
  have hs10 := hsym (lst0 (pySlice path i j)) (hd0 (pySlice path i j))
  have hs11 := hsym (lst0 (pySlice path i j)) (lst0 (pySlice path j k))
  have hs12 := hsym (lst0 (pySlice path i j)) (hd0 (pySlice path j k))
  have hs13 := hsym (hd0 (pySlice path i j)) (lst0 (pySlice path j k))
  have hs14 := hsym (hd0 (pySlice path i j)) (hd0 (pySlice path j k))
  have hs15 := hsym (lst0 (pySlice path j k)) (hd0 (pySlice path j k))
  rw [reverseSegments_recombine h2 h4 hk hik, calculateThreeOptSwap_table]
  interval_cases cs
  · simp only [threeOptRecombine, threeOptDeltaTable]
    rw [F.sub_fin]
    congr 1
    ring
  · simp only [threeOptRecombine, threeOptDeltaTable]
    simp only [eZ2, eX1, eX2, eY1, eY2, eZ1, finCost]
    rw [F.add_fin, F.add_fin, F.sub_fin, ← htour,
      tourQ_concat3 q hAne hBne hCne, tourQ_concat3 q hARne hBne hCne]
    simp only [pathQ_reverse q hsym, hd0_reverse, lst0_reverse]
    congr 1
    linarith [hs1, hs2, hs3, hs4, hs5, hs6, hs7, hs8, hs9, hs10, hs11, hs12,
      hs13, hs14, hs15]
  · simp only [threeOptRecombine, threeOptDeltaTable]
    simp only [eZ2, eX1, eX2, eY1, eY2, eZ1, finCost]
    rw [F.add_fin, F.add_fin, F.sub_fin, ← htour,
      tourQ_concat3 q hAne hBne hCne, tourQ_concat3 q hAne hBne hCRne]
    simp only [pathQ_reverse q hsym, hd0_reverse, lst0_reverse]
    congr 1
    linarith [hs1, hs2, hs3, hs4, hs5, hs6, hs7, hs8, hs9, hs10, hs11, hs12,
      hs13, hs14, hs15]
  · simp only [threeOptRecombine, threeOptDeltaTable]
    simp only [eZ2, eX1, eX2, eY1, eY2, eZ1, finCost]
    rw [F.add_fin, F.add_fin, F.sub_fin, ← htour,
      tourQ_concat3 q hAne hBne hCne, tourQ_concat3 q hAne hBRne hCne]
    simp only [pathQ_reverse q hsym, hd0_reverse, lst0_reverse]
    congr 1
    linarith [hs1, hs2, hs3, hs4, hs5, hs6, hs7, hs8, hs9, hs10, hs11, hs12,
      hs13, hs14, hs15]
  · simp only [threeOptRecombine, threeOptDeltaTable]
    simp only [eZ2, eX1, eX2, eY1, eY2, eZ1, finCost]
    rw [F.add_fin, F.add_fin, F.add_fin, F.add_fin, F.sub_fin, ← htour,
      tourQ_concat3 q hAne hBne hCne, tourQ_concat3 q hAne hBRne hCRne]
    simp only [pathQ_reverse q hsym, hd0_reverse, lst0_reverse]
    congr 1
    linarith [hs1, hs2, hs3, hs4, hs5, hs6, hs7, hs8, hs9, hs10, hs11, hs12,
      hs13, hs14, hs15]
  · simp only [threeOptRecombine, threeOptDeltaTable]
    simp only [eZ2, eX1, eX2, eY1, eY2, eZ1, finCost]
    rw [F.add_fin, F.add_fin, F.add_fin, F.add_fin, F.sub_fin, ← htour,
      tourQ_concat3 q hAne hBne hCne, tourQ_concat3 q hARne hBRne hCne]
    simp only [pathQ_reverse q hsym, hd0_reverse, lst0_reverse]
    congr 1
    linarith [hs1, hs2, hs3, hs4, hs5, hs6, hs7, hs8, hs9, hs10, hs11, hs12,
      hs13, hs14, hs15]
  · simp only [threeOptRecombine, threeOptDeltaTable]
    simp only [eZ2, eX1, eX2, eY1, eY2, eZ1, finCost]
    rw [F.add_fin, F.add_fin, F.add_fin, F.add_fin, F.sub_fin, ← htour,
      tourQ_concat3 q hAne hBne hCne, tourQ_concat3 q hARne hBne hCRne]
    simp only [pathQ_reverse q hsym, hd0_reverse, lst0_reverse]
    congr 1
    linarith [hs1, hs2, hs3, hs4, hs5, hs6, hs7, hs8, hs9, hs10, hs11, hs12,
      hs13, hs14, hs15]
  · simp only [threeOptRecombine, threeOptDeltaTable]
    simp only [eZ2, eX1, eX2, eY1, eY2, eZ1, finCost]
    rw [F.add_fin, F.add_fin, F.add_fin, F.add_fin, F.sub_fin, ← htour,
      tourQ_concat3 q hAne hBne hCne, tourQ_concat3 q hARne hBRne hCRne]
    simp only [pathQ_reverse q hsym, hd0_reverse, lst0_reverse]
    congr 1
    linarith [hs1, hs2, hs3, hs4, hs5, hs6, hs7, hs8, hs9, hs10, hs11, hs12,
      hs13, hs14, hs15]

theorem foldl_choice_bounded {f : Nat → Nat → Nat}
    (hf : ∀ b x, f b x = x ∨ f b x = b) :
    ∀ (L : List Nat) (b : Nat), b ≤ 7 → (∀ x ∈ L, x ≤ 7) → L.foldl f b ≤ 7 := by
  intro L
  induction L with
  | nil => intro b hb _; exact hb
  | cons x t ih =>
    intro b hb hall
    have hx : x ≤ 7 := hall x (by simp)
    have : f b x ≤ 7 := by
      rcases hf b x with h | h <;> rw [h]
      · exact hx
      · exact hb
    exact ih (f b x) this (fun y hy => hall y (by simp [hy]))

theorem threeOptBestCase_le_seven (c : Nat → Nat → F) (path : List Nat)
    (i j k : Nat) : threeOptBestCase c path i j k ≤ 7 := by
  simp only [threeOptBestCase]
  apply foldl_choice_bounded
  · intro b x
    by_cases h : F.lt (calculateThreeOptSwap c path i j k b)
        (calculateThreeOptSwap c path i j k x) = true
    · simp [h]
    · simp [h]
  · norm_num
  · intro x hx
    simp only [List.mem_range] at hx
    omega

set_option maxHeartbeats 1600000 in
theorem threeOptMoveF_le (c : Nat → Nat → F) (hsym : ∀ a b, c a b = c b a)
    (hok : ∀ a b, F.isOk (c a b)) (path : List Nat) (i j k cs : Nat)
    (hmem : (i, j, k) ∈ allPossibleSegmentCombinations path.length) (hcs : cs ≤ 7)
    (happ : F.lt (F.fin 0) (calculateThreeOptSwap c path i j k cs) = true) :
    F.le (tourCost c (reverseSegments path i j k cs)) (tourCost c path) := by
  obtain ⟨h2, h4, hk, hik⟩ := combos_bounds hmem
  have hAne : path.drop k ++ path.take i ≠ [] := segA_nonempty h4 hk hik
  have hBne : pySlice path i j ≠ [] :=
    pySlice_ne_nil (show i < j by omega) (show i < path.length by omega)
  have hCne : pySlice path j k ≠ [] :=
    pySlice_ne_nil (show j < k by omega) (show j < path.length by omega)
  have hARne : (path.drop k ++ path.take i).reverse ≠ [] := by
    simp only [ne_eq, List.reverse_eq_nil_iff]
    exact hAne
  have hBRne : (pySlice path i j).reverse ≠ [] := by
    simp only [ne_eq, List.reverse_eq_nil_iff]
    exact hBne
  have hCRne : (pySlice path j k).reverse ≠ [] := by
    simp only [ne_eq, List.reverse_eq_nil_iff]
    exact hCne
  have eZ2 := (hd0_segA h2 h4 hk hik).symm
  have eX1 := (lst0_segA h2 h4 hk hik).symm
  have eX2 := (hd0_segB h2 h4 hk).symm
  have eY1 := (lst0_segB h2 h4 hk).symm
  have eY2 := (hd0_segC h2 h4 hk).symm
  have eZ1 := (lst0_segC h2 h4 hk).symm
  have htourF : tourCost c ((path.drop k ++ path.take i) ++ pySlice path i j
      ++ pySlice path j k) = tourCost c path := by
    rw [tourCostF_rotate4 c (path.take i) (pySlice path i j) (pySlice path j k)
      (path.drop k), path_decomp h2 h4 hk]
  have hpA := pathCostF_isOk c hok (path.drop k ++ path.take i)
  have hpB := pathCostF_isOk c hok (pySlice path i j)
  have hpC := pathCostF_isOk c hok (pySlice path j k)
  have fs1 := hsym (lst0 (path.drop k ++ path.take i)) (hd0 (path.drop k ++ path.take i))
  have fs2 := hsym (lst0 (path.drop k ++ path.take i)) (lst0 (pySlice path i j))
  have fs3 := hsym (lst0 (path.drop k ++ path.take i)) (hd0 (pySlice path i j))
  have fs4 := hsym (lst0 (path.drop k ++ path.take i)) (lst0 (pySlice path j k))
  have fs5 := hsym (lst0 (path.drop k ++ path.take i)) (hd0 (pySlice path j k))
  have fs6 := hsym (hd0 (path.drop k ++ path.take i)) (lst0 (pySlice path i j))
  have fs7 := hsym (hd0 (path.drop k ++ path.take i)) (hd0 (pySlice path i j))
  have fs8 := hsym (hd0 (path.drop k ++ path.take i)) (lst0 (pySlice path j k))
  have fs9 := hsym (hd0 (path.drop k ++ path.take i)) (hd0 (pySlice path j k))
  have fs10 := hsym (lst0 (pySlice path i j)) (hd0 (pySlice path i j))
  have fs11 := hsym (lst0 (pySlice path i j)) (lst0 (pySlice path j k))
  have fs12 := hsym (lst0 (pySlice path i j)) (hd0 (pySlice path j k))
  have fs13 := hsym (hd0 (pySlice path i j)) (lst0 (pySlice path j k))
  have fs14 := hsym (hd0 (pySlice path i j)) (hd0 (pySlice path j k))
  have fs15 := hsym (lst0 (pySlice path j k)) (hd0 (pySlice path j k))
  have htexp : tourCost c path =
      F.add (F.add (F.add (F.add (F.add
            (pathCostF c (path.drop k ++ path.take i))
            (pathCostF c (pySlice path i j)))
          (pathCostF c (pySlice path j k)))
        (c (lst0 (path.drop k ++ path.take i)) (hd0 (pySlice path i j))))
        (c (lst0 (pySlice path i j)) (hd0 (pySlice path j k))))
      (c (lst0 (pySlice path j k)) (hd0 (path.drop k ++ path.take i))) := by
    rw [← htourF, tourCostF_concat3 c hAne hBne hCne]
  rw [calculateThreeOptSwap_table] at happ
  simp only [eZ2, eX1, eX2, eY1, eY2, eZ1] at happ
  rw [reverseSegments_recombine h2 h4 hk hik]
  have hold1 : tourCost c path =
      F.add (F.add (F.add (F.add (pathCostF c (path.drop k ++ path.take i))
            (pathCostF c (pySlice path i j))) (pathCostF c (pySlice path j k)))
          (c (lst0 (pySlice path i j)) (hd0 (pySlice path j k))))
        (F.add (c (lst0 (path.drop k ++ path.take i)) (hd0 (pySlice path i j)))
          (c (lst0 (pySlice path j k)) (hd0 (path.drop k ++ path.take i)))) := by
    rw [htexp]
    simp only [F.addAssoc, F.addComm, F.addLeftComm]
  have hold2 : tourCost c path =
      F.add (F.add (F.add (F.add (pathCostF c (path.drop k ++ path.take i))
            (pathCostF c (pySlice path i j))) (pathCostF c (pySlice path j k)))
          (c (lst0 (path.drop k ++ path.take i)) (hd0 (pySlice path i j))))
        (F.add (c (lst0 (pySlice path i j)) (hd0 (pySlice path j k)))
          (c (lst0 (pySlice path j k)) (hd0 (path.drop k ++ path.take i)))) := by
    rw [htexp]
    simp only [F.addAssoc, F.addComm, F.addLeftComm]
  have hold3 : tourCost c path =
      F.add (F.add (F.add (F.add (pathCostF c (path.drop k ++ path.take i))
            (pathCostF c (pySlice path i j))) (pathCostF c (pySlice path j k)))
          (c (lst0 (pySlice path j k)) (hd0 (path.drop k ++ path.take i))))
        (F.add (c (lst0 (path.drop k ++ path.take i)) (hd0 (pySlice path i j)))
          (c (lst0 (pySlice path i j)) (hd0 (pySlice path j k)))) := by
    rw [htexp]
    simp only [F.addAssoc, F.addComm, F.addLeftComm]
  have hold47 : tourCost c path =
      F.add (F.add (F.add (pathCostF c (path.drop k ++ path.take i))
          (pathCostF c (pySlice path i j))) (pathCostF c (pySlice path j k)))
        (F.add (F.add (c (lst0 (path.drop k ++ path.take i)) (hd0 (pySlice path i j)))
            (c (lst0 (pySlice path i j)) (hd0 (pySlice path j k))))
          (c (lst0 (pySlice path j k)) (hd0 (path.drop k ++ path.take i)))) := by
    rw [htexp]
    simp only [F.addAssoc, F.addComm, F.addLeftComm]
  interval_cases cs
  · simp only [threeOptRecombine]
    exact F.le_refl _
  · simp only [threeOptDeltaTable] at happ
    simp only [threeOptRecombine]
    have hnew : tourCost c ((path.drop k ++ path.take i).reverse
          ++ pySlice path i j ++ pySlice path j k) =
        F.add (F.add (F.add (F.add (pathCostF c (path.drop k ++ path.take i))
              (pathCostF c (pySlice path i j))) (pathCostF c (pySlice path j k)))
            (c (lst0 (pySlice path i j)) (hd0 (pySlice path j k))))
          (F.add (c (lst0 (path.drop k ++ path.take i)) (lst0 (pySlice path j k)))
            (c (hd0 (pySlice path i j)) (hd0 (path.drop k ++ path.take i)))) := by
      rw [tourCostF_concat3 c hARne hBne hCne]
      simp only [pathCostF_reverse c hsym, hd0_reverse, lst0_reverse]
      simp only [fs1, fs2, fs3, fs4, fs5, fs6, fs7, fs8, fs9, fs10, fs11, fs12,
        fs13, fs14, fs15, F.addAssoc, F.addComm, F.addLeftComm]
    rw [hold1, hnew]
    exact F.add_le_add_of_pos_sub _ _ _
      (F.isOk_add (F.isOk_add (F.isOk_add hpA hpB) hpC) (hok _ _))
      (F.isOk_add (hok _ _) (hok _ _)) (F.isOk_add (hok _ _) (hok _ _)) happ
  · simp only [threeOptDeltaTable] at happ
    simp only [threeOptRecombine]
    have hnew : tourCost c ((path.drop k ++ path.take i)
          ++ pySlice path i j ++ (pySlice path j k).reverse) =
        F.add (F.add (F.add (F.add (pathCostF c (path.drop k ++ path.take i))
              (pathCostF c (pySlice path i j))) (pathCostF c (pySlice path j k)))
            (c (lst0 (path.drop k ++ path.take i)) (hd0 (pySlice path i j))))
          (F.add (c (lst0 (pySlice path i j)) (lst0 (pySlice path j k)))
            (c (hd0 (pySlice path j k)) (hd0 (path.drop k ++ path.take i)))) := by
      rw [tourCostF_concat3 c hAne hBne hCRne]
      simp only [pathCostF_reverse c hsym, hd0_reverse, lst0_reverse]
      simp only [fs1, fs2, fs3, fs4, fs5, fs6, fs7, fs8, fs9, fs10, fs11, fs12,
        fs13, fs14, fs15, F.addAssoc, F.addComm, F.addLeftComm]
    rw [hold2, hnew]
    exact F.add_le_add_of_pos_sub _ _ _
      (F.isOk_add (F.isOk_add (F.isOk_add hpA hpB) hpC) (hok _ _))
      (F.isOk_add (hok _ _) (hok _ _)) (F.isOk_add (hok _ _) (hok _ _)) happ
  · simp only [threeOptDeltaTable] at happ
    simp only [threeOptRecombine]
    have hnew : tourCost c ((path.drop k ++ path.take i)
          ++ (pySlice path i j).reverse ++ pySlice path j k) =
        F.add (F.add (F.add (F.add (pathCostF c (path.drop k ++ path.take i))
              (pathCostF c (pySlice path i j))) (pathCostF c (pySlice path j k)))
            (c (lst0 (pySlice path j k)) (hd0 (path.drop k ++ path.take i))))
          (F.add (c (lst0 (path.drop k ++ path.take i)) (lst0 (pySlice path i j)))
            (c (hd0 (pySlice path i j)) (hd0 (pySlice path j k)))) := by
      rw [tourCostF_concat3 c hAne hBRne hCne]
      simp only [pathCostF_reverse c hsym, hd0_reverse, lst0_reverse]
      simp only [fs1, fs2, fs3, fs4, fs5, fs6, fs7, fs8, fs9, fs10, fs11, fs12,
        fs13, fs14, fs15, F.addAssoc, F.addComm, F.addLeftComm]
    rw [hold3, hnew]
    exact F.add_le_add_of_pos_sub _ _ _
      (F.isOk_add (F.isOk_add (F.isOk_add hpA hpB) hpC) (hok _ _))
      (F.isOk_add (hok _ _) (hok _ _)) (F.isOk_add (hok _ _) (hok _ _)) happ
  · simp only [threeOptDeltaTable] at happ
    simp only [threeOptRecombine]
    have hnew : tourCost c ((path.drop k ++ path.take i)
          ++ (pySlice path i j).reverse ++ (pySlice path j k).reverse) =
        F.add (F.add (F.add (pathCostF c (path.drop k ++ path.take i))
            (pathCostF c (pySlice path i j))) (pathCostF c (pySlice path j k)))
          (F.add (F.add (c (lst0 (path.drop k ++ path.take i)) (lst0 (pySlice path i j)))
              (c (hd0 (pySlice path i j)) (lst0 (pySlice path j k))))
            (c (hd0 (pySlice path j k)) (hd0 (path.drop k ++ path.take i)))) := by
      rw [tourCostF_concat3 c hAne hBRne hCRne]
      simp only [pathCostF_reverse c hsym, hd0_reverse, lst0_reverse]
      simp only [fs1, fs2, fs3, fs4, fs5, fs6, fs7, fs8, fs9, fs10, fs11, fs12,
        fs13, fs14, fs15, F.addAssoc, F.addComm, F.addLeftComm]
    rw [hold47, hnew]
    exact F.add_le_add_of_pos_sub _ _ _
      (F.isOk_add (F.isOk_add hpA hpB) hpC)
      (F.isOk_add (F.isOk_add (hok _ _) (hok _ _)) (hok _ _))
      (F.isOk_add (F.isOk_add (hok _ _) (hok _ _)) (hok _ _)) happ
  · simp only [threeOptDeltaTable] at happ
    simp only [threeOptRecombine]
    have hnew : tourCost c ((path.drop k ++ path.take i).reverse
          ++ (pySlice path i j).reverse ++ pySlice path j k) =
        F.add (F.add (F.add (pathCostF c (path.drop k ++ path.take i))
            (pathCostF c (pySlice path i j))) (pathCostF c (pySlice path j k)))
          (F.add (F.add (c (lst0 (path.drop k ++ path.take i)) (lst0 (pySlice path j k)))
              (c (hd0 (pySlice path j k)) (hd0 (pySlice path i j))))
            (c (lst0 (pySlice path i j)) (hd0 (path.drop k ++ path.take i)))) := by
      rw [tourCostF_concat3 c hARne hBRne hCne]
      simp only [pathCostF_reverse c hsym, hd0_reverse, lst0_reverse]
      simp only [fs1, fs2, fs3, fs4, fs5, fs6, fs7, fs8, fs9, fs10, fs11, fs12,
        fs13, fs14, fs15, F.addAssoc, F.addComm, F.addLeftComm]
    rw [hold47, hnew]
    exact F.add_le_add_of_pos_sub _ _ _
      (F.isOk_add (F.isOk_add hpA hpB) hpC)
      (F.isOk_add (F.isOk_add (hok _ _) (hok _ _)) (hok _ _))
      (F.isOk_add (F.isOk_add (hok _ _) (hok _ _)) (hok _ _)) happ
  · simp only [threeOptDeltaTable] at happ
    simp only [threeOptRecombine]
    have hnew : tourCost c ((path.drop k ++ path.take i).reverse
          ++ pySlice path i j ++ (pySlice path j k).reverse) =
        F.add (F.add (F.add (pathCostF c (path.drop k ++ path.take i))
            (pathCostF c (pySlice path i j))) (pathCostF c (pySlice path j k)))
          (F.add (F.add (c (lst0 (path.drop k ++ path.take i)) (hd0 (pySlice path j k)))
              (c (lst0 (pySlice path j k)) (lst0 (pySlice path i j))))
            (c (hd0 (pySlice path i j)) (hd0 (path.drop k ++ path.take i)))) := by
      rw [tourCostF_concat3 c hARne hBne hCRne]
      simp only [pathCostF_reverse c hsym, hd0_reverse, lst0_reverse]
      simp only [fs1, fs2, fs3, fs4, fs5, fs6, fs7, fs8, fs9, fs10, fs11, fs12,
        fs13, fs14, fs15, F.addAssoc, F.addComm, F.addLeftComm]
    rw [hold47, hnew]
    exact F.add_le_add_of_pos_sub _ _ _
      (F.isOk_add (F.isOk_add hpA hpB) hpC)
      (F.isOk_add (F.isOk_add (hok _ _) (hok _ _)) (hok _ _))
      (F.isOk_add (F.isOk_add (hok _ _) (hok _ _)) (hok _ _)) happ
  · simp only [threeOptDeltaTable] at happ
    simp only [threeOptRecombine]
    have hnew : tourCost c ((path.drop k ++ path.take i).reverse
          ++ (pySlice path i j).reverse ++ (pySlice path j k).reverse) =
        F.add (F.add (F.add (pathCostF c (path.drop k ++ path.take i))
            (pathCostF c (pySlice path i j))) (pathCostF c (pySlice path j k)))
          (F.add (F.add (c (lst0 (path.drop k ++ path.take i)) (hd0 (pySlice path j k)))
              (c (lst0 (pySlice path j k)) (hd0 (pySlice path i j))))
            (c (lst0 (pySlice path i j)) (hd0 (path.drop k ++ path.take i)))) := by
      rw [tourCostF_concat3 c hARne hBRne hCRne]
      simp only [pathCostF_reverse c hsym, hd0_reverse, lst0_reverse]
      simp only [fs1, fs2, fs3, fs4, fs5, fs6, fs7, fs8, fs9, fs10, fs11, fs12,
        fs13, fs14, fs15, F.addAssoc, F.addComm, F.addLeftComm]
    rw [hold47, hnew]
    exact F.add_le_add_of_pos_sub _ _ _
      (F.isOk_add (F.isOk_add hpA hpB) hpC)
      (F.isOk_add (F.isOk_add (hok _ _) (hok _ _)) (hok _ _))
      (F.isOk_add (F.isOk_add (hok _ _) (hok _ _)) (hok _ _)) happ

set_option maxHeartbeats 1600000 in
theorem threeOptFindMoveF_le (c : Nat → Nat → F) (hsym : ∀ a b, c a b = c b a)
    (hok : ∀ a b, F.isOk (c a b)) (path : List Nat) :
    ∀ (L : List (Nat × Nat × Nat)) (p : List Nat),
      (∀ t ∈ L, t ∈ allPossibleSegmentCombinations path.length) →
      threeOptFindMove c path L = some p →
      F.le (tourCost c p) (tourCost c path) ∧ p.length = path.length := by
  intro L
  induction L with
  | nil =>
    intro p _ h
    simp [threeOptFindMove] at h
  | cons hd t ih =>
    intro p hall hfind
    rcases hd with ⟨i, j, k⟩
    simp only [threeOptFindMove] at hfind
    set bc := threeOptBestCase c path i j k with hbceq
    set d := calculateThreeOptSwap c path i j k bc with hdeq
    by_cases hpos : F.lt (F.fin 0) d = true
    · rw [if_pos hpos] at hfind
      have hp : p = reverseSegments path i j k bc := by
        injection hfind with h2
        exact h2.symm
      have hmem : (i, j, k) ∈ allPossibleSegmentCombinations path.length :=
        hall (i, j, k) (by simp)
      have hbc : bc ≤ 7 := by
        rw [hbceq]
        exact threeOptBestCase_le_seven c path i j k
      have happ : F.lt (F.fin 0) (calculateThreeOptSwap c path i j k bc) = true := by
        rw [← hdeq]
        exact hpos
      constructor
      · rw [hp]
        exact threeOptMoveF_le c hsym hok path i j k bc hmem hbc happ
      · rw [hp]
        exact (reverseSegments_perm hmem hbc).length_eq
    · rw [if_neg hpos] at hfind
      exact ih p (fun t2 ht2 => hall t2 (by simp [ht2])) hfind

theorem threeOptLoopF_le (c : Nat → Nat → F) (hsym : ∀ a b, c a b = c b a)
    (hok : ∀ a b, F.isOk (c a b)) (n : Nat) :
    ∀ (fuel : Nat) (path res : List Nat), path.length = n →
      threeOptLoop n c fuel path = some res →
      F.le (tourCost c res) (tourCost c path) := by
  intro fuel
  induction fuel with
  | zero =>
    intro path res _ h
    simp [threeOptLoop] at h
  | succ fuel ih =>
    intro path res hlen hloop
    simp only [threeOptLoop] at hloop
    cases hfm : threeOptFindMove c path (allPossibleSegmentCombinations n) with
    | none =>
      rw [hfm] at hloop
      have : path = res := by simpa using hloop
      rw [this]
      exact F.le_refl _
    | some p =>
      rw [hfm] at hloop
      have hdec := threeOptFindMoveF_le c hsym hok path
        (allPossibleSegmentCombinations n) p
        (fun t ht => by rw [hlen]; exact ht) hfm
      have hrec := ih p res (by rw [hdec.2, hlen]) hloop
      exact F.le_trans hrec hdec.1

theorem twoOptCandidate_mono (n : Nat) (c : Nat → Nat → F) (i : Nat)
    (s : TwoState) (j : Nat) :
    F.le (twoOptCandidate n c i s j).best.cost s.best.cost := by
  simp only [twoOptCandidate]
  split_ifs with h1 h2 h3
  · exact F.le_refl _
  · exact F.le_of_lt h3
  · exact F.le_refl _
  · exact F.le_refl _

theorem twoOptFold_mono (n : Nat) (c : Nat → Nat → F) (i : Nat) :
    ∀ (js : List Nat) (s : TwoState),
      F.le ((js.foldl (twoOptCandidate n c i) s).best.cost) s.best.cost := by
  intro js
  induction js with
  | nil => intro s; exact F.le_refl _
  | cons j t ih =>
    intro s
    exact F.le_trans (ih (twoOptCandidate n c i s j)) (twoOptCandidate_mono n c i s j)

theorem twoOptPass_mono (n : Nat) (c : Nat → Nat → F) :
    ∀ (idxs : List Nat) (best : Sol) (dlb : Nat → Bool) (imp : Bool),
      F.le (twoOptPass n c idxs best dlb imp).1.cost best.cost := by
  intro idxs
  induction idxs with
  | nil => intro best dlb imp; exact F.le_refl _
  | cons i t ih =>
    intro best dlb imp
    simp only [twoOptPass]
    split_ifs with hd hb
    · exact ih best dlb imp
    · exact twoOptFold_mono n c i (twoOptIndexRange n) ⟨best, dlb, false, imp⟩
    · exact F.le_trans (ih _ _ _)
        (twoOptFold_mono n c i (twoOptIndexRange n) ⟨best, dlb, false, imp⟩)

theorem twoOptLoop_mono (n : Nat) (c : Nat → Nat → F) :
    ∀ (fuel : Nat) (best : Sol) (dlb : Nat → Bool) (sol : Sol),
      twoOptLoop n c fuel best dlb = some sol → F.le sol.cost best.cost := by
  intro fuel
  induction fuel with
  | zero =>
    intro best dlb sol h
    simp [twoOptLoop] at h
  | succ fuel ih =>
    intro best dlb sol h
    simp only [twoOptLoop] at h
    split_ifs at h with himp
    · exact F.le_trans (ih _ _ sol h)
        (twoOptPass_mono n c (twoOptIndexRange n) best dlb false)
    · have : (twoOptPass n c (twoOptIndexRange n) best dlb false).1 = sol := by
        simpa using h
      rw [← this]
      exact twoOptPass_mono n c (twoOptIndexRange n) best dlb false

theorem greedyLoop_sol_cost (n : Nat) (c : Nat → Nat → F) (checks : Nat → Bool) :
    ∀ (fuel t : Nat) (bssf : Option Sol) (s : Sol),
      (∀ s2, bssf = some s2 → s2.cost = tourCost c s2.route) →
      greedyLoop n c checks fuel t bssf = some (Except.ok s) →
      s.cost = tourCost c s.route := by
  intro fuel
  induction fuel with
  | zero =>
    intro t bssf s _ h
    simp [greedyLoop] at h
  | succ fuel ih =>
    intro t bssf s hinv h
    simp only [greedyLoop] at h
    by_cases hc : checks t = true
    · rw [if_pos hc] at h
      by_cases ht : t < n
      · rw [if_pos ht] at h
        cases hg : greedyInner n c fuel [t] t [t] with
        | none =>
          rw [hg] at h
          exact absurd h (by simp)
        | some route =>
          rw [hg] at h
          dsimp only at h
          by_cases hfin : (mkSol c route).cost ≠ F.inf
          · rw [if_pos hfin] at h
            have : mkSol c route = s := by simpa using h
            rw [← this]
            rfl
          · rw [if_neg hfin] at h
            exact ih (t + 1) (some (mkSol c route)) s
              (by
                intro s2 hs2
                injection hs2 with e
                rw [← e]
                rfl) h
      · rw [if_neg ht] at h
        exact absurd h (by simp)
    · rw [if_neg hc] at h
      cases bssf with
      | none => exact absurd h (by simp)
      | some s2 =>
        have : s2 = s := by simpa using h
        rw [← this]
        exact hinv s2 rfl

theorem twoOptSwap_perm {path : List Nat} {v1 v2 : Nat} (h1 : v1 ≤ v2)
    (h2 : v2 ≤ path.length) : List.Perm (twoOptSwap path v1 v2) path := by
  have hdec : path.take v1 ++ (pySlice path v1 v2 ++ path.drop v2) = path := by
    rw [pySlice_append_drop h1, List.take_append_drop]
  have hperm : List.Perm
      (path.take v1 ++ (pySlice path v1 v2).reverse ++ path.drop v2)
      (path.take v1 ++ (pySlice path v1 v2 ++ path.drop v2)) := by
    rw [List.append_assoc]
    exact (List.Perm.refl _).append
      ((List.reverse_perm _).append (List.Perm.refl _))
  rw [hdec] at hperm
  exact hperm

theorem csym5Q_symm (a b : Nat) : csym5Q a b = csym5Q b a := by
  simp only [csym5Q]
  rcases Nat.lt_trichotomy a b with h | h | h
  · rw [if_pos (by omega), if_neg (by omega)]
  · subst h
    rfl
  · rw [if_neg (by omega), if_pos (by omega)]

theorem csymInfF_symm (a b : Nat) : csymInfF a b = csymInfF b a := by
  simp only [csymInfF]
  by_cases h : (a = 0 ∧ b = 3) ∨ (a = 3 ∧ b = 0)
  · rw [if_pos h, if_pos (by tauto)]
  · rw [if_neg h, if_neg (by tauto), csym5Q_symm]

theorem csymInfF_isOk (a b : Nat) : F.isOk (csymInfF a b) := by
  simp only [csymInfF]
  split_ifs
  · exact Or.inl rfl
  · exact Or.inr ⟨csym5Q a b, rfl⟩

theorem c5_inner_stuck : ∀ (fuel : Nat) (route : List Nat),
    greedyInner 3 c5F fuel [0] 0 route = none := by
  intro fuel
  induction fuel with
  | zero => intro route; rfl
  | succ fuel ih =>
    intro route
    have hstep : greedyInner 3 c5F (fuel + 1) [0] 0 route
        = greedyInner 3 c5F fuel [0] 0 (route ++ [0]) := rfl
    rw [hstep]
    exact ih (route ++ [0])

/-- C5: the claimed behaviour fails: on a 3-point scenario whose only
infinite costs are the edges out of point 0, `greedy` never terminates, for
any amount of fuel — the inner nearest-neighbour loop dead-ends at start 0
re-appending city 0 forever, so the retry from start 1 is never reached and
no tour is ever returned. -/
theorem c5_greedy_diverges : ∀ fuel : Nat,
    greedyRun 3 c5F (fun _ => true) fuel = none := by
  intro fuel
  cases fuel with
  | zero => rfl
  | succ fuel =>
    have hin := c5_inner_stuck fuel [0]
    simp only [greedyRun, greedyLoop, if_true]
    rw [if_pos (by norm_num : (0 : Nat) < 3), hin]

/-- C6: evaluating `greedy` on a 2-point scenario with no finite tour
(`cost(0,1) = 1`, `cost(1,0) = inf`) and the deadline never expiring: both
start cities yield an infinite-cost tour, after which the code accesses
`cities[start_city_index]` with `start_city_index = 2`, out of bounds — an
`IndexError` instead of the claimed normal return of the last attempted
tour. -/
theorem c6_greedy_index_error :
    greedyRun 2 c6F (fun _ => true) 9 = some (Except.error GErr.indexError) := by
  decide

/-- C1: whenever `greedy` returns an initial solution and `twoOpt`'s
improvement loop returns (for any scenario, any time oracle, any fuel and
any time allowance), the returned tour's cost is less than or equal to the
cost of the initial greedy tour. -/
theorem c1_twoOpt_cost_monotone (n : Nat) (c : Nat → Nat → F)
    (checks : Nat → Bool) (gfuel lfuel : Nat) (ta : ℚ) (s0 sol : Sol)
    (hg : greedyRun n c checks gfuel = some (Except.ok s0))
    (ht : twoOptRun n c checks gfuel lfuel ta = some (Except.ok sol)) :
    F.le sol.cost s0.cost := by
  unfold twoOptRun at ht
  rw [hg] at ht
  dsimp only at ht
  cases hl : twoOptLoop n c lfuel s0 (fun _ => false) with
  | none =>
    rw [hl] at ht
    exact absurd ht (by simp)
  | some s2 =>
    rw [hl] at ht
    have : s2 = sol := by simpa using ht
    rw [← this]
    exact twoOptLoop_mono n c lfuel s0 (fun _ => false) s2 hl

/-- Witness for C1 on a concrete 5-city symmetric scenario: greedy returns
the tour `[0,1,2,3,4]` of cost 25, twoOpt returns `[1,0,2,3,4]` of cost 23,
and 23 ≤ 25. -/
theorem c1_witness :
    greedyRun 5 csym5F (fun _ => true) 20 = some (Except.ok ⟨[0, 1, 2, 3, 4], F.fin 25⟩) ∧
      twoOptRun 5 csym5F (fun _ => true) 20 5 0 = some (Except.ok ⟨[1, 0, 2, 3, 4], F.fin 23⟩) ∧
      F.le (F.fin 23) (F.fin 25) :=
  ⟨by decide, by decide,
    c1_twoOpt_cost_monotone 5 csym5F (fun _ => true) 20 5 0
      ⟨[0, 1, 2, 3, 4], F.fin 25⟩ ⟨[1, 0, 2, 3, 4], F.fin 23⟩ (by decide) (by decide)⟩

/-- Counterexample to C2 as stated: on a concrete 5-city asymmetric
finite-cost scenario the greedy tour `[0,1,2,3,4]` has cost 42, but
`threeOpt` terminates normally with the tour `[0,1,2,4,3]` of cost 80 — the
returned cost is strictly larger than the initial cost. -/
theorem c2_counterexample :
    greedyRun 5 cexF (fun _ => true) 30 = some (Except.ok ⟨[0, 1, 2, 3, 4], F.fin 42⟩) ∧
      threeOptRun 5 cexF (fun _ => true) 30 10 60 =
        some (Except.ok ⟨[0, 1, 2, 4, 3], F.fin 80⟩) ∧
      ¬ F.le (F.fin 80) (F.fin 42) := by
  refine ⟨by decide, by decide, by decide⟩

/-- C2 (amended): for scenarios whose cost function is symmetric — taking,
as for every scenario, only finite values or `+inf` on forbidden edges —
whenever `greedy` returns an initial solution whose route visits all `n`
cities and `threeOpt`'s loop returns, the returned tour's cost is less
than or equal to the initial greedy tour's cost. -/
theorem c2_threeOpt_symmetric_monotone (n : Nat) (c : Nat → Nat → F)
    (hsym : ∀ a b, c a b = c b a) (hok : ∀ a b, F.isOk (c a b))
    (checks : Nat → Bool) (gfuel lfuel : Nat) (ta : ℚ) (s0 sol : Sol)
    (hg : greedyRun n c checks gfuel = some (Except.ok s0))
    (hlen : s0.route.length = n)
    (ht : threeOptRun n c checks gfuel lfuel ta = some (Except.ok sol)) :
    F.le sol.cost s0.cost := by
  unfold threeOptRun at ht
  rw [hg] at ht
  dsimp only at ht
  cases hl : threeOptLoop n c lfuel s0.route with
  | none =>
    rw [hl] at ht
    exact absurd ht (by simp)
  | some p =>
    rw [hl] at ht
    have hsol : mkSol c p = sol := by simpa using ht
    have hmono := threeOptLoopF_le c hsym hok n lfuel s0.route p hlen hl
    have hcost0 : s0.cost = tourCost c s0.route :=
      greedyLoop_sol_cost n c checks gfuel 0 none s0
        (by intro s2 hs2; exact absurd hs2 (by simp)) hg
    rw [← hsol, hcost0]
    show F.le (tourCost c p) (tourCost c s0.route)
    exact hmono

/-- Witness for the amended C2 on the symmetric 5-city scenario whose edge
between cities 0 and 3 is forbidden (`+inf`): greedy returns `[0,1,2,3,4]`
of cost 25, threeOpt improves it to `[4,1,0,2,3]` of cost 23, and 23 ≤ 25. -/
theorem c2_witness :
    greedyRun 5 csymInfF (fun _ => true) 20 =
        some (Except.ok ⟨[0, 1, 2, 3, 4], F.fin 25⟩) ∧
      threeOptRun 5 csymInfF (fun _ => true) 20 8 60 =
        some (Except.ok ⟨[4, 1, 0, 2, 3], F.fin 23⟩) ∧
      F.le (F.fin 23) (F.fin 25) :=
  ⟨by decide, by decide,
    c2_threeOpt_symmetric_monotone 5 csymInfF csymInfF_symm csymInfF_isOk
      (fun _ => true) 20 8 60 ⟨[0, 1, 2, 3, 4], F.fin 25⟩
      ⟨[4, 1, 0, 2, 3], F.fin 23⟩ (by decide) (by decide) (by decide)⟩

/-- C3: evaluating the code at a concrete failing input: on a 5-city
symmetric scenario with route = city order, the pair `(i, j) = (0, 2)`
passes twoOpt's non-degeneracy filter, `lengthDeltaFromTwoOpt` evaluates to
9, but the full-cost difference of the applied `twoOptSwap(route, 0, 2)`
is 8 — the closed-form delta does not equal the true cost change of the
applied exchange (the delta prices reversing `route[i+1..j]` while the swap
reverses `route[i..j-1]`, contradicting `twoOptSwap`'s own comment). -/
theorem c3_delta_vs_swap_eval :
    (¬ ((0 : Nat) = 2 ∨ (0 + 1) % 5 = 2 ∨ (2 + 1) % 5 = 0)) ∧
      lengthDeltaFromTwoOpt c3F 5 0 2 = F.fin 9 ∧
      F.sub (tourCost c3F (twoOptSwap [0, 1, 2, 3, 4] 0 2))
          (tourCost c3F [0, 1, 2, 3, 4]) = F.fin 8 ∧
      (F.fin (9 : ℤ) ≠ F.fin 8) := by
  refine ⟨by decide, by decide, by decide, by decide⟩

/-- Counterexample to C4 as stated: on the 5-city asymmetric finite-cost
scenario, the triple `(1,3,5)` is produced by
`allPossibleSegmentCombinations 5` and for case 2 the closed-form reduction
is 2 while the true cost difference `cost(path) - cost(reverseSegments(...))`
is -38. -/
theorem c4_counterexample :
    ((1, 3, 5) ∈ allPossibleSegmentCombinations 5) ∧
      calculateThreeOptSwap cexF [0, 1, 2, 3, 4] 1 3 5 2 = F.fin 2 ∧
      F.sub (tourCost cexF [0, 1, 2, 3, 4])
          (tourCost cexF (reverseSegments [0, 1, 2, 3, 4] 1 3 5 2)) = F.fin (-38) ∧
      (F.fin (2 : ℤ) ≠ F.fin (-38)) := by
  refine ⟨by decide, by decide, by decide, by decide⟩

/-- C4 (amended): for scenarios whose cost function is symmetric and
finite, for every path, every triple produced by
`allPossibleSegmentCombinations` on the path's length and every case 0..7,
`calculateThreeOptSwap` equals the total cost of the path minus the total
cost of `reverseSegments` applied to it. -/
theorem c4_delta_eq_symmetric (q : Nat → Nat → ℤ) (hsym : ∀ a b, q a b = q b a)
    (path : List Nat) (i j k cs : Nat)
    (hmem : (i, j, k) ∈ allPossibleSegmentCombinations path.length)
    (hcs : cs ≤ 7) :
    calculateThreeOptSwap (finCost q) path i j k cs =
      F.sub (tourCost (finCost q) path)
        (tourCost (finCost q) (reverseSegments path i j k cs)) := by
  rw [tourCost_finCost, tourCost_finCost, F.sub_fin,
    threeOptDelta_eq q hsym path i j k cs hmem hcs]

/-- Witness for the amended C4 at the all-ones scenario, the triple
`(0,2,4)` and case 3. -/
theorem c4_witness :
    ((0, 2, 4) ∈ allPossibleSegmentCombinations 5) ∧
      calculateThreeOptSwap (finCost oneQ) [0, 1, 2, 3, 4] 0 2 4 3 =
        F.sub (tourCost (finCost oneQ) [0, 1, 2, 3, 4])
          (tourCost (finCost oneQ) (reverseSegments [0, 1, 2, 3, 4] 0 2 4 3)) :=
  ⟨by decide,
    c4_delta_eq_symmetric oneQ (fun _ _ => rfl) [0, 1, 2, 3, 4] 0 2 4 3
      (by decide) (by norm_num)⟩

/-- Counterexample to C7 as stated, at `N = 5`: index `N - 1 = 4` is not
among the outer indices `i`, is not among the partner indices `j` (both are
`range(len(cities)-1)`), and the last city `4` receives no don't-look bit
from the initialisation loop. -/
theorem c7_counterexample :
    (4 ∉ twoOptIndexRange 5) ∧ (4 ∉ dlbInitKeys 5) := by
  decide

/-- C7 (amended): for every city count `n`, the last index `n - 1` is
excluded both as the outer index `i` and as the partner index `j` of
`twoOpt`'s scan (both ranges are exactly `0..n-2`), and the last city gets
no don't-look bit from the initialisation loop (its key set is also
`0..n-2`); the closing edge therefore never serves as a removed candidate
edge. -/
theorem c7_last_index_excluded : ∀ n : Nat,
    ((n - 1) ∉ twoOptIndexRange n) ∧ ((n - 1) ∉ dlbInitKeys n) ∧
      (∀ m, m ∈ twoOptIndexRange n ↔ m < n - 1) ∧
      (∀ m, m ∈ dlbInitKeys n ↔ m < n - 1) := by
  intro n
  have hkeys : dlbInitKeys n = List.range (n - 1) := by
    rw [dlbInitKeys, List.take_range]
    congr 1
    omega
  refine ⟨?_, ?_, ?_, ?_⟩
  · simp [twoOptIndexRange]
  · simp [hkeys]
  · intro m
    simp [twoOptIndexRange]
  · intro m
    simp [hkeys]

/-- Counterexample to C8 as stated: with a time allowance of 0 — already
exhausted before the search starts — `twoOpt` still performs its full
improvement search on the concrete symmetric scenario and returns a tour
strictly cheaper than the greedy initial tour, so the search does not stop
when the allowance is exhausted and the elapsed time is never compared with
it. -/
theorem c8_counterexample :
    twoOptRun 5 csym5F (fun _ => true) 20 5 0 =
        some (Except.ok ⟨[1, 0, 2, 3, 4], F.fin 23⟩) ∧
      greedyRun 5 csym5F (fun _ => true) 20 =
        some (Except.ok ⟨[0, 1, 2, 3, 4], F.fin 25⟩) ∧
      F.lt (F.fin 23) (F.fin 25) = true := by
  refine ⟨by decide, by decide, by decide⟩

/-- C8 (amended): neither `twoOpt` nor `threeOpt` ever consults the
caller-supplied `time_allowance`: for every scenario, time oracle and fuel,
the result is identical for any two allowances (`greedy` is invoked inside
them with its own default allowance, represented by the shared oracle). -/
theorem c8_allowance_ignored (n : Nat) (c : Nat → Nat → F)
    (checks : Nat → Bool) (gfuel lfuel : Nat) (ta1 ta2 : ℚ) :
    twoOptRun n c checks gfuel lfuel ta1 = twoOptRun n c checks gfuel lfuel ta2 ∧
      threeOptRun n c checks gfuel lfuel ta1 = threeOptRun n c checks gfuel lfuel ta2 :=
  ⟨rfl, rfl⟩

/-- C9: `twoOptSwap` outputs (for all `v1 ≤ v2 ≤ N`) and `reverseSegments`
outputs (for every triple from `allPossibleSegmentCombinations` and every
case 0..7) are permutations of the input path, of the same length; applied
to a route that is a permutation of the point set they therefore yield
permutations of the same point set. -/
theorem c9_outputs_are_permutations :
    (∀ (path : List Nat) (v1 v2 : Nat), v1 ≤ v2 → v2 ≤ path.length →
      List.Perm (twoOptSwap path v1 v2) path ∧
        (twoOptSwap path v1 v2).length = path.length) ∧
    (∀ (path : List Nat) (i j k cs : Nat),
      (i, j, k) ∈ allPossibleSegmentCombinations path.length → cs ≤ 7 →
      List.Perm (reverseSegments path i j k cs) path ∧
        (reverseSegments path i j k cs).length = path.length) := by
  constructor
  · intro path v1 v2 h1 h2
    have hp := twoOptSwap_perm h1 h2
    exact ⟨hp, hp.length_eq⟩
  · intro path i j k cs hmem hcs
    have hp := reverseSegments_perm hmem hcs
    exact ⟨hp, hp.length_eq⟩

/-- Witness for C9 at a concrete route, swap indices and 3-opt move. -/
theorem c9_witness :
    List.Perm (twoOptSwap [0, 1, 2, 3, 4] 1 3) [0, 1, 2, 3, 4] ∧
      List.Perm (reverseSegments [0, 1, 2, 3, 4] 1 3 5 2) [0, 1, 2, 3, 4] :=
  ⟨(c9_outputs_are_permutations.1 [0, 1, 2, 3, 4] 1 3 (by norm_num)
      (by norm_num)).1,
    (c9_outputs_are_permutations.2 [0, 1, 2, 3, 4] 1 3 5 2 (by decide)
      (by norm_num)).1⟩

/-- C10: when a candidate `(i, j)` passes the filter, has negative computed
delta, but its fully recomputed swapped-route cost is not strictly lower
than the current best cost, the candidate step leaves the current best
solution unchanged while the don't-look bits of the four endpoints have
been reset to false. -/
theorem c10_guarded_acceptance (n : Nat) (c : Nat → Nat → F) (i j : Nat)
    (s : TwoState)
    (hfilter : ¬ (i = j ∨ (i + 1) % n = j ∨ (j + 1) % n = i))
    (hdelta : F.lt (lengthDeltaFromTwoOpt c n i j) (F.fin 0) = true)
    (hreject : F.lt (tourCost c (twoOptSwap s.best.route i j)) s.best.cost = false) :
    (twoOptCandidate n c i s j).best = s.best ∧
      (twoOptCandidate n c i s j).dlb i = false ∧
      (twoOptCandidate n c i s j).dlb ((i + 1) % n) = false ∧
      (twoOptCandidate n c i s j).dlb j = false ∧
      (twoOptCandidate n c i s j).dlb ((j + 1) % n) = false := by
  simp only [twoOptCandidate]
  rw [if_neg hfilter, if_pos hdelta, if_neg (by rw [hreject]; simp)]
  refine ⟨rfl, ?_, ?_, ?_, ?_⟩ <;> simp

/-- Witness for C10 at a concrete rejected candidate: in the second pass of
the 2-opt run on the symmetric scenario, the pair `(0, 2)` has delta -1 yet
the recomputed cost 25 is not below the current best 23, so the best
solution is kept and the four don't-look bits are cleared. -/
theorem c10_witness :
    (twoOptCandidate 5 csym5F 0
        ⟨⟨[1, 0, 2, 3, 4], F.fin 23⟩, fun _ => false, false, false⟩ 2).best =
      (⟨⟨[1, 0, 2, 3, 4], F.fin 23⟩, fun _ => false, false, false⟩ : TwoState).best ∧
      (twoOptCandidate 5 csym5F 0
        ⟨⟨[1, 0, 2, 3, 4], F.fin 23⟩, fun _ => false, false, false⟩ 2).dlb 0 = false ∧
      (twoOptCandidate 5 csym5F 0
        ⟨⟨[1, 0, 2, 3, 4], F.fin 23⟩, fun _ => false, false, false⟩ 2).dlb ((0 + 1) % 5) = false ∧
      (twoOptCandidate 5 csym5F 0
        ⟨⟨[1, 0, 2, 3, 4], F.fin 23⟩, fun _ => false, false, false⟩ 2).dlb 2 = false ∧
      (twoOptCandidate 5 csym5F 0
        ⟨⟨[1, 0, 2, 3, 4], F.fin 23⟩, fun _ => false, false, false⟩ 2).dlb ((2 + 1) % 5) = false :=
  c10_guarded_acceptance 5 csym5F 0 2
    ⟨⟨[1, 0, 2, 3, 4], F.fin 23⟩, fun _ => false, false, false⟩
    (by decide) (by decide) (by decide)

end TSP

